import Mathlib

set_option maxRecDepth 40000

/-!
Verification of the snapzify repository's manifest-insertion scripts
(`add_chinese_processing.py`, `add_pinyin_openai.py`) and log-severity
rewrite scripts (`fix_logging.py`, `fix_app_logging.py`).

Text buffers are modelled as `List Char`.  Every regex used by the repository
has the deterministic shape "literal, then a greedy run of characters from a
complement class, then a literal whose first character is excluded from the
class" (for example `(LIT = \x7b[^\x7d]+\x7d;\n)` or
`logger\.debug\("([^"]*error[^"]*)"\)`), so Python's backtracking leftmost
search coincides with the greedy scanner `tryMat`/`scanSub` below: the run is
forced to be the maximal run, and the whole-pattern match at a position is
unique.  `re.sub` semantics (replace every non-overlapping leftmost match,
resuming after the end of each match) is mirrored by `scanSub`.
-/

/-- ASCII lower casing, as applied by `re.IGNORECASE` to the ASCII texts the
scripts process. -/
def lowC (c : Char) : Char :=
  if 'A' ≤ c ∧ c ≤ 'Z' then Char.ofNat (c.toNat + 32) else c

/-- Character comparison, optionally case-insensitive (`re.IGNORECASE`). -/
def chEq (ci : Bool) (a b : Char) : Bool :=
  if ci then lowC a == lowC b else a == b

/-- If `p` is a (possibly case-insensitive) prefix of `s`, return the rest of
`s`; otherwise `none`. -/
def dropPrefC (ci : Bool) : List Char → List Char → Option (List Char)
  | [], s => some s
  | _ :: _, [] => none
  | p :: ps, c :: cs => if chEq ci p c then dropPrefC ci ps cs else none

/-- Boolean "q occurs at the start of s" (case-sensitive). -/
def startsWB (q s : List Char) : Bool := (dropPrefC false q s).isSome

/-- Number of start positions of `s` at which `q` occurs (substring
occurrences, overlapping ones included). -/
def countOc (q : List Char) : List Char → Nat
  | [] => 0
  | c :: s => (if startsWB q (c :: s) then 1 else 0) + countOc q s

/-- Boolean substring test: models Python's `q in content`. -/
def hasOc (q : List Char) : List Char → Bool
  | [] => false
  | c :: s => startsWB q (c :: s) || hasOc q s

/-- Deterministic pattern shapes covering every regex in the repository:
`seg ci oL keep ne cond cL` is the pattern "literal `oL`, then a greedy run of
characters satisfying `keep` (nonempty when `ne`, additionally constrained by
`cond`, which encodes inner literals such as `error` in `[^"]*error[^"]*`),
then literal `cL`"; `lit l` is an exact literal pattern. -/
inductive Pat where
  | seg (ci : Bool) (oL : List Char) (keep : Char → Bool) (ne : Bool)
      (cond : List Char → Bool) (cL : List Char)
  | lit (l : List Char)

/-- Try to match pattern `P` at the start of `s`.  On success, return the
length of the matched text together with the captured run (empty for `lit`).
Matches of length zero are rejected (no pattern in the repository can match
the empty string). -/
def tryMat (P : Pat) (s : List Char) : Option (Nat × List Char) :=
  match P with
  | .lit l =>
    match dropPrefC false l s with
    | none => none
    | some _ => if l.isEmpty then none else some (l.length, [])
  | .seg ci oL keep ne cond cL =>
    match dropPrefC ci oL s with
    | none => none
    | some s1 =>
      let r := s1.takeWhile keep
      if ne && r.isEmpty then none
      else if cond r then
        match dropPrefC ci cL (s1.dropWhile keep) with
        | none => none
        | some _ =>
          if oL.length + r.length + cL.length = 0 then none
          else some (oL.length + r.length + cL.length, r)
      else none

theorem dropPrefC_some_len {ci : Bool} :
    ∀ {p s t : List Char}, dropPrefC ci p s = some t →
      s.length = p.length + t.length := by
  intro p
  induction p with
  | nil => intro s t h; simp [dropPrefC] at h; simp [h]
  | cons a as ih =>
    intro s t h
    cases s with
    | nil => simp [dropPrefC] at h
    | cons c cs =>
      simp only [dropPrefC] at h
      by_cases hc : chEq ci a c
      · simp [hc] at h
        have := ih h
        simp [List.length_cons, this]
        omega
      · simp [hc] at h

theorem tryMat_pos {P : Pat} {s : List Char} {k : Nat} {r : List Char}
    (h : tryMat P s = some (k, r)) : 0 < k := by
  cases P with
  | lit l =>
    simp only [tryMat] at h
    cases hd : dropPrefC false l s with
    | none => rw [hd] at h; simp at h
    | some t =>
      rw [hd] at h
      by_cases he : l.isEmpty
      · simp [he] at h
      · simp [he] at h
        have : l ≠ [] := by
          intro hn; rw [hn] at he; simp at he
        have : 0 < l.length := List.length_pos.mpr this
        omega
  | seg ci oL keep ne cond cL =>
    simp only [tryMat] at h
    cases hd : dropPrefC ci oL s with
    | none => rw [hd] at h; simp at h
    | some s1 =>
      rw [hd] at h
      simp only at h
      by_cases h1 : ne && (s1.takeWhile keep).isEmpty
      · simp [h1] at h
      · simp only [h1, if_false] at h
        by_cases h2 : cond (s1.takeWhile keep)
        · simp only [h2, if_true] at h
          cases hd2 : dropPrefC ci cL (s1.dropWhile keep) with
          | none => rw [hd2] at h; simp at h
          | some t2 =>
            rw [hd2] at h
            by_cases h3 : oL.length + (s1.takeWhile keep).length + cL.length = 0
            · simp [h3] at h
            · simp [h3] at h
              omega
        · simp [h2] at h

theorem tryMat_le {P : Pat} {s : List Char} {k : Nat} {r : List Char}
    (h : tryMat P s = some (k, r)) : k ≤ s.length := by
  cases P with
  | lit l =>
    simp only [tryMat] at h
    cases hd : dropPrefC false l s with
    | none => rw [hd] at h; simp at h
    | some t =>
      rw [hd] at h
      by_cases he : l.isEmpty
      · simp [he] at h
      · simp [he] at h
        have := dropPrefC_some_len hd
        omega
  | seg ci oL keep ne cond cL =>
    simp only [tryMat] at h
    cases hd : dropPrefC ci oL s with
    | none => rw [hd] at h; simp at h
    | some s1 =>
      rw [hd] at h
      simp only at h
      by_cases h1 : ne && (s1.takeWhile keep).isEmpty
      · simp [h1] at h
      · simp only [h1, if_false] at h
        by_cases h2 : cond (s1.takeWhile keep)
        · simp only [h2, if_true] at h
          cases hd2 : dropPrefC ci cL (s1.dropWhile keep) with
          | none => rw [hd2] at h; simp at h
          | some t2 =>
            rw [hd2] at h
            by_cases h3 : oL.length + (s1.takeWhile keep).length + cL.length = 0
            · simp [h3] at h
            · simp [h3] at h
              have hlen1 := dropPrefC_some_len hd
              have hlen2 := dropPrefC_some_len hd2
              have htw : (s1.takeWhile keep).length + (s1.dropWhile keep).length
                  = s1.length := by
                rw [← List.length_append, List.takeWhile_append_dropWhile]
              omega
        · simp [h2] at h

/-- Fuelled scanner kernel for `re.sub` (structural recursion on the fuel, so
that concrete instances reduce inside the kernel).  With fuel at least the
length of the input the fuel never runs out (each match consumes at least one
character). -/
def scanSubF (P : Pat) (repl : List Char → List Char → List Char) :
    Nat → List Char → List Char
  | _, [] => []
  | 0, c :: s' => c :: s'
  | f + 1, c :: s' =>
    match tryMat P (c :: s') with
    | none => c :: scanSubF P repl f s'
    | some (k, r) =>
      repl ((c :: s').take k) r ++ scanSubF P repl f ((c :: s').drop k)

/-- `re.sub(P, repl, s)`: replace every non-overlapping leftmost match of `P`
in `s`, scanning left to right and resuming after each match.  `repl` receives
the matched text and the captured run. -/
def scanSub (P : Pat) (repl : List Char → List Char → List Char)
    (s : List Char) : List Char :=
  scanSubF P repl s.length s

/-- Fuelled kernel for the match counter. -/
def scanCountF (P : Pat) : Nat → List Char → Nat
  | _, [] => 0
  | 0, _ :: _ => 0
  | f + 1, c :: s' =>
    match tryMat P (c :: s') with
    | none => scanCountF P f s'
    | some (k, _) => 1 + scanCountF P f ((c :: s').drop k)

/-- Number of non-overlapping leftmost matches of `P` in `s` (the matches
`re.sub` would replace). -/
def scanCount (P : Pat) (s : List Char) : Nat :=
  scanCountF P s.length s

theorem scanSubF_irrel (P : Pat) (repl : List Char → List Char → List Char) :
    ∀ f : Nat, ∀ s : List Char, s.length ≤ f →
      scanSubF P repl f s = scanSubF P repl s.length s := by
  intro f
  induction f using Nat.strong_induction_on with
  | _ f ih =>
    intro s hs
    cases s with
    | nil => cases f <;> rfl
    | cons c s' =>
      cases f with
      | zero => simp at hs
      | succ g =>
        simp only [List.length_cons] at hs
        have hg : s'.length ≤ g := by omega
        cases htm : tryMat P (c :: s') with
        | none =>
          simp only [scanSubF, List.length_cons, htm]
          rw [ih g (by omega) s' hg, ih s'.length (by omega) s' (le_refl _)]
        | some kr =>
          obtain ⟨k, r⟩ := kr
          have hk := tryMat_pos htm
          have hd : ((c :: s').drop k).length ≤ g := by
            simp [List.length_drop]
            omega
          have hd2 : ((c :: s').drop k).length ≤ s'.length := by
            simp [List.length_drop]
            omega
          simp only [scanSubF, List.length_cons, htm]
          rw [ih g (by omega) _ hd, ih s'.length (by omega) _ hd2]

theorem scanCountF_irrel (P : Pat) :
    ∀ f : Nat, ∀ s : List Char, s.length ≤ f →
      scanCountF P f s = scanCountF P s.length s := by
  intro f
  induction f using Nat.strong_induction_on with
  | _ f ih =>
    intro s hs
    cases s with
    | nil => cases f <;> rfl
    | cons c s' =>
      cases f with
      | zero => simp at hs
      | succ g =>
        simp only [List.length_cons] at hs
        have hg : s'.length ≤ g := by omega
        cases htm : tryMat P (c :: s') with
        | none =>
          simp only [scanCountF, List.length_cons, htm]
          rw [ih g (by omega) s' hg, ih s'.length (by omega) s' (le_refl _)]
        | some kr =>
          obtain ⟨k, r⟩ := kr
          have hk := tryMat_pos htm
          have hd : ((c :: s').drop k).length ≤ g := by
            simp [List.length_drop]
            omega
          have hd2 : ((c :: s').drop k).length ≤ s'.length := by
            simp [List.length_drop]
            omega
          simp only [scanCountF, List.length_cons, htm]
          rw [ih g (by omega) _ hd, ih s'.length (by omega) _ hd2]

/-- First match of `P` in `s`: `some (before, matched, run, after)`. -/
def scanFind (P : Pat) (s : List Char) :
    Option (List Char × List Char × List Char × List Char) :=
  match s with
  | [] => none
  | c :: s' =>
    match tryMat P (c :: s') with
    | none =>
      match scanFind P s' with
      | none => none
      | some (a, m, r, b) => some (c :: a, m, r, b)
    | some (k, r) => some ([], (c :: s').take k, r, (c :: s').drop k)

theorem scanSub_nil (P : Pat) (repl : List Char → List Char → List Char) :
    scanSub P repl [] = [] := rfl

theorem scanSub_cons_none {P : Pat} (repl : List Char → List Char → List Char)
    {c : Char} {s : List Char} (h : tryMat P (c :: s) = none) :
    scanSub P repl (c :: s) = c :: scanSub P repl s := by
  simp only [scanSub, List.length_cons, scanSubF, h]

theorem scanSub_cons_some {P : Pat} (repl : List Char → List Char → List Char)
    {c : Char} {s : List Char} {k : Nat} {r : List Char}
    (h : tryMat P (c :: s) = some (k, r)) :
    scanSub P repl (c :: s) =
      repl ((c :: s).take k) r ++ scanSub P repl ((c :: s).drop k) := by
  have hk := tryMat_pos h
  have hd : ((c :: s).drop k).length ≤ s.length := by
    simp [List.length_drop]
    omega
  simp only [scanSub, List.length_cons, scanSubF, h]
  rw [scanSubF_irrel P repl s.length _ hd]

theorem scanCount_nil (P : Pat) : scanCount P [] = 0 := rfl

theorem scanCount_cons_none {P : Pat} {c : Char} {s : List Char}
    (h : tryMat P (c :: s) = none) :
    scanCount P (c :: s) = scanCount P s := by
  simp only [scanCount, List.length_cons, scanCountF, h]

theorem scanCount_cons_some {P : Pat} {c : Char} {s : List Char} {k : Nat}
    {r : List Char} (h : tryMat P (c :: s) = some (k, r)) :
    scanCount P (c :: s) = 1 + scanCount P ((c :: s).drop k) := by
  have hk := tryMat_pos h
  have hd : ((c :: s).drop k).length ≤ s.length := by
    simp [List.length_drop]
    omega
  simp only [scanCount, List.length_cons, scanCountF, h]
  rw [scanCountF_irrel P s.length _ hd]

theorem scanFind_nil (P : Pat) : scanFind P [] = none := by
  rw [scanFind]

theorem scanFind_cons_none {P : Pat} {c : Char} {s : List Char}
    (h : tryMat P (c :: s) = none) :
    scanFind P (c :: s) =
      match scanFind P s with
      | none => none
      | some (a, m, r, b) => some (c :: a, m, r, b) := by
  rw [scanFind, h]

theorem scanFind_cons_some {P : Pat} {c : Char} {s : List Char} {k : Nat}
    {r : List Char} (h : tryMat P (c :: s) = some (k, r)) :
    scanFind P (c :: s) = some ([], (c :: s).take k, r, (c :: s).drop k) := by
  rw [scanFind, h]

theorem chEq_false_iff {a b : Char} : chEq false a b = true ↔ a = b := by
  simp [chEq]

theorem dropPrefC_false_some {p : List Char} :
    ∀ {s t : List Char}, dropPrefC false p s = some t ↔ s = p ++ t := by
  induction p with
  | nil => intro s t; simp [dropPrefC]
  | cons a as ih =>
    intro s t
    cases s with
    | nil => simp [dropPrefC]
    | cons c cs =>
      simp only [dropPrefC]
      by_cases hc : chEq false a c
      · have hac : a = c := chEq_false_iff.mp hc
        subst hac
        simp [hc, ih]
      · have hac : ¬ a = c := fun he => hc (chEq_false_iff.mpr he)
        simp [hc]
        intro he
        exact absurd he.symm hac

theorem all_keep_takeWhile (p : Char → Bool) (l : List Char) :
    (l.takeWhile p).all p = true := by
  induction l with
  | nil => rfl
  | cons c cs ih =>
    by_cases hc : p c
    · simp [List.takeWhile, hc, ih]
    · simp [List.takeWhile, hc]

/-- Soundness of `tryMat` on an exact-literal pattern. -/
theorem tryMat_lit_sound {l s : List Char} {k : Nat} {r : List Char}
    (h : tryMat (.lit l) s = some (k, r)) :
    k = l.length ∧ r = [] ∧ s = l ++ s.drop l.length := by
  simp only [tryMat] at h
  cases hd : dropPrefC false l s with
  | none => rw [hd] at h; simp at h
  | some t =>
    rw [hd] at h
    by_cases he : l.isEmpty
    · simp [he] at h
    · simp [he] at h
      have hst : s = l ++ t := dropPrefC_false_some.mp hd
      refine ⟨h.1.symm, h.2, ?_⟩
      rw [hst]
      congr 1
      simp

/-- Soundness of `tryMat` on a case-sensitive `seg` pattern: the matched text
is exactly `oL ++ r ++ cL`. -/
theorem tryMat_seg_sound {oL cL s : List Char} {keep : Char → Bool} {ne : Bool}
    {cond : List Char → Bool} {k : Nat} {r : List Char}
    (h : tryMat (.seg false oL keep ne cond cL) s = some (k, r)) :
    k = oL.length + r.length + cL.length ∧
      s = oL ++ r ++ cL ++ s.drop k ∧ cond r = true ∧ r.all keep = true := by
  simp only [tryMat] at h
  cases hd : dropPrefC false oL s with
  | none => rw [hd] at h; simp at h
  | some s1 =>
    rw [hd] at h
    simp only at h
    by_cases h1 : ne && (s1.takeWhile keep).isEmpty
    · simp [h1] at h
    · simp only [h1, if_false] at h
      by_cases h2 : cond (s1.takeWhile keep)
      · simp only [h2, if_true] at h
        cases hd2 : dropPrefC false cL (s1.dropWhile keep) with
        | none => rw [hd2] at h; simp at h
        | some t2 =>
          rw [hd2] at h
          by_cases h3 : oL.length + (s1.takeWhile keep).length + cL.length = 0
          · simp [h3] at h
          · simp [h3] at h
            obtain ⟨hk, hr⟩ := h
            subst hr
            have hs1 : s = oL ++ s1 := dropPrefC_false_some.mp hd
            have hs2 : s1.dropWhile keep = cL ++ t2 := dropPrefC_false_some.mp hd2
            have hsplit : s1 = s1.takeWhile keep ++ (cL ++ t2) := by
              rw [← hs2, List.takeWhile_append_dropWhile]
            refine ⟨hk.symm, ?_, h2, ?_⟩
            · have hs : s = (oL ++ List.takeWhile keep s1 ++ cL) ++ t2 := by
                conv_lhs => rw [hs1, hsplit]
                simp
              have hxlen : (oL ++ List.takeWhile keep s1 ++ cL).length = k := by
                simp [List.length_append]
                omega
              have hdrop : s.drop k = t2 := by
                rw [hs, ← hxlen, List.drop_left]
              rw [hdrop, hs]
            · exact all_keep_takeWhile keep s1
      · simp [h2] at h

/-- If a pattern has no match anywhere in `s`, `re.sub` leaves `s` unchanged. -/
theorem scanSub_of_count_zero {P : Pat} (repl : List Char → List Char → List Char) :
    ∀ {s : List Char}, scanCount P s = 0 → scanSub P repl s = s := by
  intro s
  induction s with
  | nil => intro _; rw [scanSub_nil]
  | cons c cs ih =>
    intro h0
    cases htm : tryMat P (c :: cs) with
    | none =>
      rw [scanCount_cons_none htm] at h0
      rw [scanSub_cons_none repl htm, ih h0]
    | some kr =>
      obtain ⟨k, r⟩ := kr
      rw [scanCount_cons_some htm] at h0
      omega

/-- Characterization of the first match: the buffer splits as
`before ++ matched ++ after`, `re.sub` rewrites the match in place and
continues in `after`, and the match count steps down into `after`. -/
theorem scanFind_spec {P : Pat} (repl : List Char → List Char → List Char) :
    ∀ {s a m r b : List Char}, scanFind P s = some (a, m, r, b) →
      s = a ++ m ++ b ∧ m ≠ [] ∧
      scanSub P repl s = a ++ repl m r ++ scanSub P repl b ∧
      scanCount P s = 1 + scanCount P b := by
  intro s
  induction s with
  | nil => intro a m r b h; rw [scanFind_nil] at h; cases h
  | cons c cs ih =>
    intro a m r b h
    cases htm : tryMat P (c :: cs) with
    | some kr =>
      obtain ⟨k, r2⟩ := kr
      rw [scanFind_cons_some htm] at h
      cases h
      refine ⟨?_, ?_, ?_, ?_⟩
      · simp [List.take_append_drop]
      · have hk := tryMat_pos htm
        intro hm
        have hl : ((c :: cs).take k).length = 0 := by rw [hm]; rfl
        rw [List.length_take] at hl
        simp at hl
        omega
      · rw [scanSub_cons_some repl htm]
        simp
      · rw [scanCount_cons_some htm]
    | none =>
      rw [scanFind_cons_none htm] at h
      cases hf : scanFind P cs with
      | none => rw [hf] at h; cases h
      | some x =>
        obtain ⟨a2, m2, r2, b2⟩ := x
        rw [hf] at h
        cases h
        obtain ⟨h1, h2, h3, h4⟩ := ih hf
        refine ⟨?_, h2, ?_, ?_⟩
        · simp [h1]
        · rw [scanSub_cons_none repl htm, h3]
          rfl
        · rw [scanCount_cons_none htm, h4]

theorem scanFind_of_count {P : Pat} :
    ∀ {s : List Char} {n : Nat}, scanCount P s = n + 1 →
      ∃ a m r b, scanFind P s = some (a, m, r, b) ∧ scanCount P b = n := by
  intro s
  induction s with
  | nil => intro n h; rw [scanCount_nil] at h; cases h
  | cons c cs ih =>
    intro n h
    cases htm : tryMat P (c :: cs) with
    | some kr =>
      obtain ⟨k, r⟩ := kr
      rw [scanCount_cons_some htm] at h
      refine ⟨[], (c :: cs).take k, r, (c :: cs).drop k, scanFind_cons_some htm, ?_⟩
      omega
    | none =>
      rw [scanCount_cons_none htm] at h
      obtain ⟨a, m, r, b, hf, hc⟩ := ih h
      refine ⟨c :: a, m, r, b, ?_, hc⟩
      rw [scanFind_cons_none htm, hf]

/-- Exactly-one-match substitution: when `P` matches exactly once in `s`, the
result of `re.sub` is `s` with the single match rewritten in place and every
other byte unchanged. -/
theorem subst_once {P : Pat} (repl : List Char → List Char → List Char)
    {s : List Char} (h : scanCount P s = 1) :
    ∃ a m r b, scanFind P s = some (a, m, r, b) ∧ s = a ++ m ++ b ∧ m ≠ [] ∧
      scanCount P b = 0 ∧ scanSub P repl s = a ++ repl m r ++ b := by
  obtain ⟨a, m, r, b, hf, hc⟩ := scanFind_of_count (n := 0) h
  obtain ⟨h1, h2, h3, _⟩ := scanFind_spec repl hf
  exact ⟨a, m, r, b, hf, h1, h2, hc, by rw [h3, scanSub_of_count_zero repl hc]⟩

/-- Two-match substitution: when `P` matches exactly twice, `re.sub` rewrites
at both match sites (it does not stop after, or reject on, multiple matches). -/
theorem subst_twice {P : Pat} (repl : List Char → List Char → List Char)
    {s : List Char} (h : scanCount P s = 2) :
    ∃ a m r u m2 r2 b, s = a ++ m ++ (u ++ m2 ++ b) ∧ m ≠ [] ∧ m2 ≠ [] ∧
      scanSub P repl s = a ++ repl m r ++ (u ++ repl m2 r2 ++ b) := by
  obtain ⟨a, m, r, b0, hf, hc⟩ := scanFind_of_count (n := 1) h
  obtain ⟨h1, h2, h3, _⟩ := scanFind_spec repl hf
  obtain ⟨u, m2, r2, b, hf2, hc2⟩ := scanFind_of_count (n := 0) hc
  obtain ⟨g1, g2, g3, _⟩ := scanFind_spec repl hf2
  refine ⟨a, m, r, u, m2, r2, b, ?_, h2, g2, ?_⟩
  · rw [h1, g1]
  · rw [h3, g3, scanSub_of_count_zero repl hc2]

/-! ## Embedding of `add_chinese_processing.py`

The script reads the project manifest, exits successfully with an
"already in project" message when the display name occurs anywhere,
otherwise applies four `re.sub` insertions (each `r'\1' + addition`,
i.e. every match is replaced by itself followed by the new record) and
unconditionally writes the result back, printing an "Added" message. -/

/-- Outcome of one script invocation: process exit code, the message printed,
and the buffer written back to the file (`none` when the script exits before
writing). -/
structure RunResult where
  exitCode : Nat
  message : List Char
  written : Option (List Char)
deriving DecidableEq

/-- re.sub replacement `r'\1' + addition`: the whole match (group 1) followed
by the new record. -/
def insRepl (ins : List Char) : List Char → List Char → List Char :=
  fun m _ => m ++ ins

/-- `[^\x7d]` (any character except a closing brace). -/
def notBrace (c : Char) : Bool := !(c == '\x7d')

def acp_display : List Char := ("ChineseProcessingService.swift").toList

def acp_file_ref_id : List Char := ("3D9B1A301234567890123460").toList

def acp_build_file_id : List Char := ("3D9B1A311234567890123461").toList

/-- `build_file_pattern`: `(3D9B1A211234567890123458 /\* PinyinServiceOpenAI\.swift in Sources \*/ = \x7b[^\x7d]+\x7d;\n)`. -/
def acp_build_file_pattern : Pat :=
  .seg false
    (("3D9B1A211234567890123458 /* PinyinServiceOpenAI.swift in Sources */ = \x7b").toList)
    notBrace true (fun _ => true) (("\x7d;\n").toList)

def acp_build_file_addition : List Char :=
  ("\t\t3D9B1A311234567890123461 /* ChineseProcessingService.swift in Sources */ = \x7bisa = PBXBuildFile; fileRef = 3D9B1A301234567890123460 /* ChineseProcessingService.swift */; \x7d;\n").toList

/-- `file_ref_pattern`: `(3D9B1A201234567890123457 /\* PinyinServiceOpenAI\.swift \*/ = \x7b[^\x7d]+\x7d;\n)`. -/
def acp_file_ref_pattern : Pat :=
  .seg false
    (("3D9B1A201234567890123457 /* PinyinServiceOpenAI.swift */ = \x7b").toList)
    notBrace true (fun _ => true) (("\x7d;\n").toList)

def acp_file_ref_addition : List Char :=
  ("\t\t3D9B1A301234567890123460 /* ChineseProcessingService.swift */ = \x7bisa = PBXFileReference; lastKnownFileType = sourcecode.swift; path = ChineseProcessingService.swift; sourceTree = \"<group>\"; \x7d;\n").toList

/-- `services_pattern`: the exact literal `(3D9B1A201234567890123457 /\* PinyinServiceOpenAI\.swift \*/,\n)`. -/
def acp_services_pattern : Pat :=
  .lit (("3D9B1A201234567890123457 /* PinyinServiceOpenAI.swift */,\n").toList)

def acp_services_addition : List Char :=
  ("\t\t\t\t3D9B1A301234567890123460 /* ChineseProcessingService.swift */,\n").toList

/-- `build_phase_pattern`: the exact literal `(3D9B1A211234567890123458 /\* PinyinServiceOpenAI\.swift in Sources \*/,\n)`. -/
def acp_build_phase_pattern : Pat :=
  .lit (("3D9B1A211234567890123458 /* PinyinServiceOpenAI.swift in Sources */,\n").toList)

def acp_build_phase_addition : List Char :=
  ("\t\t\t\t3D9B1A311234567890123461 /* ChineseProcessingService.swift in Sources */,\n").toList

/-- The four sequential `re.sub` calls of `add_chinese_processing.py` on the
in-memory buffer. -/
def acp_mutate (content : List Char) : List Char :=
  scanSub acp_build_phase_pattern (insRepl acp_build_phase_addition)
    (scanSub acp_services_pattern (insRepl acp_services_addition)
      (scanSub acp_file_ref_pattern (insRepl acp_file_ref_addition)
        (scanSub acp_build_file_pattern (insRepl acp_build_file_addition) content)))

def acp_already_msg : List Char :=
  ("ChineseProcessingService.swift already in project").toList

def acp_added_msg : List Char :=
  ("Added ChineseProcessingService.swift to project").toList

/-- One invocation of `add_chinese_processing.py` on buffer `content`:
if the display name is present, print and `exit(0)` without writing;
otherwise mutate, write the result, print "Added", and exit 0 (end of
script). -/
def acp_run (content : List Char) : RunResult :=
  if hasOc acp_display content then
    ⟨0, acp_already_msg, none⟩
  else
    ⟨0, acp_added_msg, some (acp_mutate content)⟩

/-- The on-disk file contents after a run that started from `content`. -/
def acp_disk (content : List Char) : List Char :=
  match (acp_run content).written with
  | none => content
  | some w => w

/-! ## Embedding of `add_pinyin_openai.py` (same structure, six insertions,
two build targets). -/

def pny_display : List Char := ("PinyinServiceOpenAI.swift").toList

def pny_file_ref_id : List Char := ("3D9B1A201234567890123457").toList

def pny_build_file_id : List Char := ("3D9B1A211234567890123458").toList

def pny_build_file_id2 : List Char := ("3D9B1A221234567890123459").toList

/-- `build_file_pattern`: `(3D9B1A0E1234567890123456 /\* PinyinServiceImpl\.swift in Sources \*/ = \x7b[^\x7d]+\x7d;\n)`. -/
def pny_build_file_pattern : Pat :=
  .seg false
    (("3D9B1A0E1234567890123456 /* PinyinServiceImpl.swift in Sources */ = \x7b").toList)
    notBrace true (fun _ => true) (("\x7d;\n").toList)

def pny_build_file_addition : List Char :=
  ("\t\t3D9B1A211234567890123458 /* PinyinServiceOpenAI.swift in Sources */ = \x7bisa = PBXBuildFile; fileRef = 3D9B1A201234567890123457 /* PinyinServiceOpenAI.swift */; \x7d;\n").toList

/-- `share_ext_pattern`: `(3D4F30C32C6FC87E002CC01C /\* PinyinServiceImpl\.swift in Sources \*/[^\x7d]+\x7d;\n)` (no ` = \x7b` before the run). -/
def pny_share_ext_pattern : Pat :=
  .seg false
    (("3D4F30C32C6FC87E002CC01C /* PinyinServiceImpl.swift in Sources */").toList)
    notBrace true (fun _ => true) (("\x7d;\n").toList)

def pny_share_ext_addition : List Char :=
  ("\t\t3D9B1A221234567890123459 /* PinyinServiceOpenAI.swift in Sources */ = \x7bisa = PBXBuildFile; fileRef = 3D9B1A201234567890123457 /* PinyinServiceOpenAI.swift */; \x7d;\n").toList

/-- `file_ref_pattern`: `(3D9B1A0F1234567890123456 /\* PinyinServiceImpl\.swift \*/ = \x7b[^\x7d]+\x7d;\n)`. -/
def pny_file_ref_pattern : Pat :=
  .seg false
    (("3D9B1A0F1234567890123456 /* PinyinServiceImpl.swift */ = \x7b").toList)
    notBrace true (fun _ => true) (("\x7d;\n").toList)

def pny_file_ref_addition : List Char :=
  ("\t\t3D9B1A201234567890123457 /* PinyinServiceOpenAI.swift */ = \x7bisa = PBXFileReference; lastKnownFileType = sourcecode.swift; path = PinyinServiceOpenAI.swift; sourceTree = \"<group>\"; \x7d;\n").toList

def pny_services_pattern : Pat :=
  .lit (("3D9B1A0F1234567890123456 /* PinyinServiceImpl.swift */,\n").toList)

def pny_services_addition : List Char :=
  ("\t\t\t\t3D9B1A201234567890123457 /* PinyinServiceOpenAI.swift */,\n").toList

def pny_build_phase_pattern : Pat :=
  .lit (("3D9B1A0E1234567890123456 /* PinyinServiceImpl.swift in Sources */,\n").toList)

def pny_build_phase_addition : List Char :=
  ("\t\t\t\t3D9B1A211234567890123458 /* PinyinServiceOpenAI.swift in Sources */,\n").toList

def pny_share_build_pattern : Pat :=
  .lit (("3D4F30C32C6FC87E002CC01C /* PinyinServiceImpl.swift in Sources */,\n").toList)

def pny_share_build_addition : List Char :=
  ("\t\t\t\t3D9B1A221234567890123459 /* PinyinServiceOpenAI.swift in Sources */,\n").toList

/-- The six sequential `re.sub` calls of `add_pinyin_openai.py`. -/
def pny_mutate (content : List Char) : List Char :=
  scanSub pny_share_build_pattern (insRepl pny_share_build_addition)
    (scanSub pny_build_phase_pattern (insRepl pny_build_phase_addition)
      (scanSub pny_services_pattern (insRepl pny_services_addition)
        (scanSub pny_file_ref_pattern (insRepl pny_file_ref_addition)
          (scanSub pny_share_ext_pattern (insRepl pny_share_ext_addition)
            (scanSub pny_build_file_pattern (insRepl pny_build_file_addition) content)))))

def pny_already_msg : List Char :=
  ("PinyinServiceOpenAI.swift already in project").toList

def pny_added_msg : List Char :=
  ("Added PinyinServiceOpenAI.swift to project").toList

/-- One invocation of `add_pinyin_openai.py` on buffer `content`. -/
def pny_run (content : List Char) : RunResult :=
  if hasOc pny_display content then
    ⟨0, pny_already_msg, none⟩
  else
    ⟨0, pny_added_msg, some (pny_mutate content)⟩

/-- The on-disk file contents after a run of `add_pinyin_openai.py`. -/
def pny_disk (content : List Char) : List Char :=
  match (pny_run content).written with
  | none => content
  | some w => w

/-- C2: when the display name already occurs in the buffer, both scripts
perform zero mutations (nothing is written, the disk is byte-identical) and
exit 0 with the distinct "already in project" message, which differs from the
"Added" message. -/
theorem c2_already_present_noop (c : List Char) :
    (hasOc acp_display c = true →
      acp_run c = ⟨0, acp_already_msg, none⟩ ∧ acp_disk c = c ∧
        acp_already_msg ≠ acp_added_msg) ∧
    (hasOc pny_display c = true →
      pny_run c = ⟨0, pny_already_msg, none⟩ ∧ pny_disk c = c ∧
        pny_already_msg ≠ pny_added_msg) := by
  constructor
  · intro h
    refine ⟨by simp [acp_run, h], by simp [acp_disk, acp_run, h], by decide⟩
  · intro h
    refine ⟨by simp [pny_run, h], by simp [pny_disk, pny_run, h], by decide⟩

/-- Witness for C2 at concrete buffers that contain the display names. -/
theorem c2_already_present_noop_witness :
    (hasOc acp_display acp_display = true ∧
      acp_run acp_display = ⟨0, acp_already_msg, none⟩) ∧
    (hasOc pny_display pny_display = true ∧
      pny_run pny_display = ⟨0, pny_already_msg, none⟩) :=
  ⟨⟨by decide, ((c2_already_present_noop acp_display).1 (by decide)).1⟩,
   ⟨by decide, ((c2_already_present_noop pny_display).2 (by decide)).1⟩⟩

/-- C8 (amended): the script always exits 0; the printed message does
distinguish "already present" from "added", but an anchor-matching failure is
not detected: the exit status and message never depend on whether the anchor
patterns matched. -/
theorem c8_exit_status (c : List Char) :
    (acp_run c).exitCode = 0 ∧
    (hasOc acp_display c = true → (acp_run c).message = acp_already_msg) ∧
    (hasOc acp_display c = false → (acp_run c).message = acp_added_msg) ∧
    acp_already_msg ≠ acp_added_msg := by
  by_cases h : hasOc acp_display c = true
  · refine ⟨?_, ?_, ?_, ?_⟩
    · simp [acp_run, h]
    · intro _
      simp [acp_run, h]
    · intro hf
      rw [h] at hf
      cases hf
    · decide
  · have hf : hasOc acp_display c = false := by
      cases hh : hasOc acp_display c
      · rfl
      · exact absurd hh h
    refine ⟨?_, ?_, ?_, ?_⟩
    · simp [acp_run, hf]
    · intro ht
      rw [ht] at hf
      cases hf
    · intro _
      simp [acp_run, hf]
    · decide

/-- Witness for C8 (amended) at a concrete buffer. -/
theorem c8_exit_status_witness :
    (acp_run (("x").toList)).exitCode = 0 ∧
    (acp_run (("x").toList)).message = acp_added_msg :=
  ⟨(c8_exit_status (("x").toList)).1,
   (c8_exit_status (("x").toList)).2.2.1 (by decide)⟩

/-- Counterexample to C8 as stated: a buffer in which every anchor pattern
fails to match, yet the process exits 0 (not non-zero) and prints the generic
"Added" message that names no unmatched section or anchor. -/
theorem c8_counterexample :
    scanCount acp_build_file_pattern (("no anchors here").toList) = 0 ∧
    scanCount acp_file_ref_pattern (("no anchors here").toList) = 0 ∧
    scanCount acp_services_pattern (("no anchors here").toList) = 0 ∧
    scanCount acp_build_phase_pattern (("no anchors here").toList) = 0 ∧
    (acp_run (("no anchors here").toList)).exitCode = 0 ∧
    (acp_run (("no anchors here").toList)).message = acp_added_msg := by
  decide

/-- Buffer for the C1 counterexample: the build-file anchor record is absent
(its pattern matches nowhere) while the other three anchors are present. -/
def c1_cex_input : List Char :=
  ("F\n\t\t3D9B1A201234567890123457 /* PinyinServiceOpenAI.swift */ = \x7bisa = PBXFileReference; \x7d;\nG\n\t\t\t\t3D9B1A201234567890123457 /* PinyinServiceOpenAI.swift */,\nH\n\t\t\t\t3D9B1A211234567890123458 /* PinyinServiceOpenAI.swift in Sources */,\nI\n").toList

/-- Counterexample to C1 as stated: on a buffer where one section's anchor
pattern has no match, the script does not report any error (exit 0, "Added"
message) and persists a buffer that differs from the input — a
partially-mutated buffer is written even though a section failed. -/
theorem c1_counterexample :
    scanCount acp_build_file_pattern c1_cex_input = 0 ∧
    hasOc acp_display c1_cex_input = false ∧
    acp_run c1_cex_input = ⟨0, acp_added_msg, some (acp_mutate c1_cex_input)⟩ ∧
    acp_mutate c1_cex_input ≠ c1_cex_input := by
  decide

/-- Buffer for the C4 counterexample: the group-membership (services) anchor
occurs twice. -/
def c4_cex_input : List Char :=
  ("J\n\t\t\t\t3D9B1A201234567890123457 /* PinyinServiceOpenAI.swift */,\nK\n\t\t\t\t3D9B1A201234567890123457 /* PinyinServiceOpenAI.swift */,\nL\n").toList

/-- Counterexample to C4 as stated: when a section's anchor pattern matches
more than once, the engine signals nothing (exit 0) and inserts the new
record at every match site (the addition occurs twice in the written buffer). -/
theorem c4_counterexample :
    scanCount acp_services_pattern c4_cex_input = 2 ∧
    (acp_run c4_cex_input).exitCode = 0 ∧
    (acp_run c4_cex_input).written = some (acp_mutate c4_cex_input) ∧
    countOc acp_services_addition (acp_mutate c4_cex_input) = 2 := by
  decide

/-- Buffer for the C7 counterexample: no anchor matches and the display name
is absent. -/
def c7_cex_input : List Char := ("M = N;\n").toList

/-- Counterexample to C7 as stated: a run the script treats as successful
(exit 0, "Added" message, buffer written) in which zero blocks were inserted —
the before/after diff is empty rather than four contiguous inserted blocks. -/
theorem c7_counterexample :
    (acp_run c7_cex_input).exitCode = 0 ∧
    (acp_run c7_cex_input).message = acp_added_msg ∧
    (acp_run c7_cex_input).written = some c7_cex_input ∧
    scanCount acp_build_file_pattern c7_cex_input = 0 ∧
    scanCount acp_file_ref_pattern c7_cex_input = 0 ∧
    scanCount acp_services_pattern c7_cex_input = 0 ∧
    scanCount acp_build_phase_pattern c7_cex_input = 0 := by
  decide

/-- The four (anchor pattern, record addition) section pairs of
`add_chinese_processing.py`, in the order the script applies them. -/
def acpSections : List (Pat × List Char) :=
  [(acp_build_file_pattern, acp_build_file_addition),
   (acp_file_ref_pattern, acp_file_ref_addition),
   (acp_services_pattern, acp_services_addition),
   (acp_build_phase_pattern, acp_build_phase_addition)]

/-- C3: for every buffer in which a section's anchor pattern matches exactly
once, the substitution for that section yields the buffer with the new record
(whose text ends in its own line terminator) spliced immediately after the
matched anchor text — between the anchor and the anchor's original successor —
and every byte outside the splice point unchanged. -/
theorem c3_single_match_splice (P : Pat) (ins s : List Char)
    (hsec : (P, ins) ∈ acpSections) (h1 : scanCount P s = 1) :
    ∃ a m b, s = a ++ m ++ b ∧
      scanSub P (insRepl ins) s = a ++ m ++ ins ++ b ∧
      ins.getLast? = some ('\n') := by
  obtain ⟨a, m, r, b, hf, hs, hm, hb, hsub⟩ := subst_once (insRepl ins) h1
  refine ⟨a, m, b, hs, ?_, ?_⟩
  · rw [hsub]
    simp [insRepl]
  · simp only [acpSections, List.mem_cons, List.not_mem_nil, or_false,
      Prod.mk.injEq] at hsec
    rcases hsec with ⟨hP, hi⟩ | ⟨hP, hi⟩ | ⟨hP, hi⟩ | ⟨hP, hi⟩ <;> rw [hi] <;>
      decide

/-- Witness for C3: the group-membership section on a concrete buffer whose
anchor occurs exactly once. -/
theorem c3_single_match_splice_witness :
    scanCount acp_services_pattern
      (("w\n\t\t\t\t3D9B1A201234567890123457 /* PinyinServiceOpenAI.swift */,\nz\n").toList) = 1 ∧
    ∃ a m b,
      (("w\n\t\t\t\t3D9B1A201234567890123457 /* PinyinServiceOpenAI.swift */,\nz\n").toList)
        = a ++ m ++ b ∧
      scanSub acp_services_pattern (insRepl acp_services_addition)
        (("w\n\t\t\t\t3D9B1A201234567890123457 /* PinyinServiceOpenAI.swift */,\nz\n").toList)
        = a ++ m ++ acp_services_addition ++ b ∧
      acp_services_addition.getLast? = some ('\n') :=
  ⟨by decide,
   c3_single_match_splice acp_services_pattern acp_services_addition _
     (by simp [acpSections]) (by decide)⟩

/-- C4 (amended): when a section's anchor pattern matches more than once the
engine signals nothing; `re.sub` silently inserts the record at every match
site (shown here for exactly two matches). -/
theorem c4_amended_insert_at_every_match (P : Pat) (ins s : List Char)
    (hsec : (P, ins) ∈ acpSections) (h2 : scanCount P s = 2) :
    ∃ a m u m2 b, s = a ++ m ++ (u ++ m2 ++ b) ∧
      scanSub P (insRepl ins) s = a ++ m ++ ins ++ (u ++ m2 ++ ins ++ b) := by
  obtain ⟨a, m, r, u, m2, r2, b, hs, hm, hm2, hsub⟩ := subst_twice (insRepl ins) h2
  refine ⟨a, m, u, m2, b, hs, ?_⟩
  rw [hsub]
  simp [insRepl]

/-- Witness for the amended C4 on a concrete two-anchor buffer. -/
theorem c4_amended_insert_at_every_match_witness :
    scanCount acp_services_pattern c4_cex_input = 2 ∧
    ∃ a m u m2 b, c4_cex_input = a ++ m ++ (u ++ m2 ++ b) ∧
      scanSub acp_services_pattern (insRepl acp_services_addition) c4_cex_input
        = a ++ m ++ acp_services_addition ++ (u ++ m2 ++ acp_services_addition ++ b) :=
  ⟨by decide,
   c4_amended_insert_at_every_match acp_services_pattern acp_services_addition
     c4_cex_input (by simp [acpSections]) (by decide)⟩

/-- C1 (amended): a section whose anchor pattern has no match is left
unchanged by that section's substitution, but the script reports no
`AnchorNotFound`: whenever the presence check passes it exits 0 with the
"Added" message and writes the mutated buffer unconditionally, regardless of
which sections actually matched. -/
theorem c1_amended_no_match_silent (P : Pat) (ins c s : List Char)
    (hsec : (P, ins) ∈ acpSections) (h0 : scanCount P s = 0)
    (hnp : hasOc acp_display c = false) :
    scanSub P (insRepl ins) s = s ∧
    acp_run c = ⟨0, acp_added_msg, some (acp_mutate c)⟩ := by
  refine ⟨scanSub_of_count_zero (insRepl ins) h0, ?_⟩
  simp [acp_run, hnp]

/-- Witness for the amended C1: the build-file section misses on
`c1_cex_input`, its substitution is the identity there, and the run still
writes and reports success. -/
theorem c1_amended_no_match_silent_witness :
    scanCount acp_build_file_pattern c1_cex_input = 0 ∧
    hasOc acp_display c1_cex_input = false ∧
    scanSub acp_build_file_pattern (insRepl acp_build_file_addition) c1_cex_input
      = c1_cex_input ∧
    acp_run c1_cex_input = ⟨0, acp_added_msg, some (acp_mutate c1_cex_input)⟩ :=
  ⟨by decide, by decide,
   (c1_amended_no_match_silent acp_build_file_pattern acp_build_file_addition
      c1_cex_input c1_cex_input (by simp [acpSections]) (by decide) (by decide)).1,
   (c1_amended_no_match_silent acp_build_file_pattern acp_build_file_addition
      c1_cex_input c1_cex_input (by simp [acpSections]) (by decide) (by decide)).2⟩

theorem startsW_iff {q s : List Char} :
    startsWB q s = true ↔ ∃ t, s = q ++ t := by
  constructor
  · intro h
    simp only [startsWB, Option.isSome_iff_exists] at h
    obtain ⟨t, ht⟩ := h
    exact ⟨t, dropPrefC_false_some.mp ht⟩
  · intro ⟨t, ht⟩
    simp only [startsWB, Option.isSome_iff_exists]
    exact ⟨t, dropPrefC_false_some.mpr ht⟩

theorem startsW_length_le {q s : List Char} (h : startsWB q s = true) :
    q.length ≤ s.length := by
  obtain ⟨t, ht⟩ := startsW_iff.mp h
  rw [ht]
  simp

theorem mem_of_startsW_cons {q : List Char} {c : Char} {t : List Char}
    (h : startsWB q (c :: t) = true) (hq : q ≠ []) : c ∈ q := by
  obtain ⟨u, hu⟩ := startsW_iff.mp h
  cases q with
  | nil => exact absurd rfl hq
  | cons q0 qs =>
    rw [List.cons_append] at hu
    injection hu with h1 h2
    rw [h1]
    exact List.mem_cons_self q0 qs

theorem startsW_append_of_le {q : List Char} :
    ∀ {x y : List Char}, q.length ≤ x.length →
      startsWB q (x ++ y) = startsWB q x := by
  induction q with
  | nil => intro x y _; rfl
  | cons q0 qs ih =>
    intro x y hlen
    cases x with
    | nil => simp at hlen
    | cons x0 x' =>
      simp only [List.length_cons] at hlen
      simp only [List.cons_append, startsWB, dropPrefC]
      by_cases hc : chEq false q0 x0
      · simp only [hc, if_true]
        have := ih (x := x') (y := y) (by omega)
        simpa [startsWB] using this
      · simp [hc]

theorem getLast_mem_of_startsW {q x y : List Char} {ch : Char}
    (h : startsWB q (x ++ y) = true) (hx : x.getLast? = some ch)
    (hlt : x.length < q.length) : ch ∈ q := by
  obtain ⟨t, ht⟩ := startsW_iff.mp h
  have hxq : x = q.take x.length := by
    have h1 : (x ++ y).take x.length = x := by simp
    rw [ht, List.take_append_eq_append_take] at h1
    have h2 : x.length - q.length = 0 := by omega
    rw [h2] at h1
    simp at h1
    exact h1.symm
  have hmem : ch ∈ x := List.mem_of_mem_getLast? hx
  rw [hxq] at hmem
  exact List.take_subset _ _ hmem

/-- If `x` ends in a character that does not occur in `q`, no occurrence of
`q` can span the boundary between `x` and `y`. -/
theorem startsW_append_boundary {q x y : List Char} {ch : Char} (hq : q ≠ [])
    (hx : x.getLast? = some ch) (hch : ch ∉ q) :
    startsWB q (x ++ y) = startsWB q x := by
  by_cases hlen : q.length ≤ x.length
  · exact startsW_append_of_le hlen
  · have h1 : startsWB q x = false := by
      cases hs : startsWB q x
      · rfl
      · have := startsW_length_le hs
        omega
    have h2 : startsWB q (x ++ y) = false := by
      cases hs : startsWB q (x ++ y)
      · rfl
      · exact absurd (getLast_mem_of_startsW hs hx (by omega)) hch
    rw [h1, h2]

theorem countOc_append {q : List Char} {ch : Char} (hq : q ≠ []) :
    ∀ {x : List Char} (y : List Char), x.getLast? = some ch → ch ∉ q →
      countOc q (x ++ y) = countOc q x + countOc q y := by
  intro x
  induction x with
  | nil => intro y hx _; cases hx
  | cons c x' ih =>
    intro y hx hch
    cases x' with
    | nil =>
      have hcc : c = ch := by
        rw [List.getLast?_singleton] at hx
        injection hx
      subst hcc
      have h1 : startsWB q (c :: y) = false := by
        cases hs : startsWB q (c :: y)
        · rfl
        · exact absurd (mem_of_startsW_cons hs hq) hch
      have h2 : startsWB q [c] = false := by
        cases hs : startsWB q [c]
        · rfl
        · exact absurd (mem_of_startsW_cons hs hq) hch
      simp [countOc, h1, h2]
    | cons d x'' =>
      rw [List.getLast?_cons_cons] at hx
      have hlast : (c :: d :: x'').getLast? = some ch := by
        rw [List.getLast?_cons_cons]
        exact hx
      have hbd : startsWB q (c :: ((d :: x'') ++ y)) = startsWB q (c :: d :: x'') := by
        have hb := startsW_append_boundary (y := y) hq hlast hch
        rw [List.cons_append] at hb
        exact hb
      have ihy := ih y hx hch
      calc countOc q ((c :: d :: x'') ++ y)
          = (if startsWB q (c :: ((d :: x'') ++ y)) = true then 1 else 0) +
              countOc q ((d :: x'') ++ y) := by
            rw [List.cons_append]
            rfl
        _ = (if startsWB q (c :: d :: x'') = true then 1 else 0) +
              (countOc q (d :: x'') + countOc q y) := by rw [hbd, ihy]
        _ = countOc q (c :: d :: x'') + countOc q y := by
            have hc2 : countOc q (c :: d :: x'') =
                (if startsWB q (c :: d :: x'') = true then 1 else 0) +
                  countOc q (d :: x'') := rfl
            rw [hc2]
            omega

theorem countOc_le_append_right (q : List Char) :
    ∀ (x y : List Char), countOc q y ≤ countOc q (x ++ y) := by
  intro x
  induction x with
  | nil => intro y; simp
  | cons c x' ih =>
    intro y
    have h1 : countOc q ((c :: x') ++ y) =
        (if startsWB q (c :: (x' ++ y)) = true then 1 else 0) +
          countOc q (x' ++ y) := by
      rw [List.cons_append]
      rfl
    rw [h1]
    have := ih y
    omega

theorem startsW_mono {q x : List Char} (y : List Char)
    (h : startsWB q x = true) : startsWB q (x ++ y) = true := by
  obtain ⟨t, ht⟩ := startsW_iff.mp h
  exact startsW_iff.mpr ⟨t ++ y, by rw [ht]; simp⟩

theorem countOc_le_append_left (q : List Char) :
    ∀ (x y : List Char), countOc q x ≤ countOc q (x ++ y) := by
  intro x
  induction x with
  | nil => intro y; simp [countOc]
  | cons c x' ih =>
    intro y
    have h1 : countOc q ((c :: x') ++ y) =
        (if startsWB q (c :: (x' ++ y)) = true then 1 else 0) +
          countOc q (x' ++ y) := by
      rw [List.cons_append]
      rfl
    have h2 : countOc q (c :: x') =
        (if startsWB q (c :: x') = true then 1 else 0) + countOc q x' := rfl
    rw [h1, h2]
    have hx := ih y
    by_cases hs : startsWB q (c :: x') = true
    · have hs2 : startsWB q (c :: (x' ++ y)) = true := by
        have hm := startsW_mono y hs
        rw [List.cons_append] at hm
        exact hm
      rw [hs, hs2]
      omega
    · simp only [Bool.not_eq_true] at hs
      rw [hs]
      cases hs2 : startsWB q (c :: (x' ++ y)) <;> simp <;> omega

theorem scanFind_tryMat {P : Pat} :
    ∀ {s a m r b : List Char}, scanFind P s = some (a, m, r, b) →
      tryMat P (m ++ b) = some (m.length, r) := by
  intro s
  induction s with
  | nil => intro a m r b h; rw [scanFind_nil] at h; cases h
  | cons c cs ih =>
    intro a m r b h
    cases htm : tryMat P (c :: cs) with
    | some kr =>
      obtain ⟨k, r2⟩ := kr
      rw [scanFind_cons_some htm] at h
      cases h
      have hle := tryMat_le htm
      have hlen : ((c :: cs).take k).length = k := by
        rw [List.length_take]
        omega
      rw [List.take_append_drop, hlen]
      exact htm
    | none =>
      rw [scanFind_cons_none htm] at h
      cases hf : scanFind P cs with
      | none => rw [hf] at h; cases h
      | some x =>
        obtain ⟨a2, m2, r2, b2⟩ := x
        rw [hf] at h
        cases h
        exact ih hf

/-- The text matched by an exact-literal pattern is that literal. -/
theorem scanFind_lit_match {l s a m r b : List Char}
    (h : scanFind (.lit l) s = some (a, m, r, b)) : m = l ∧ r = [] := by
  have ht := scanFind_tryMat h
  obtain ⟨hk, hr, hs⟩ := tryMat_lit_sound ht
  have hinj := List.append_inj hs.symm hk.symm
  exact ⟨hinj.1.symm, hr⟩

/-- The text matched by a case-sensitive `seg` pattern is
`oL ++ run ++ cL`. -/
theorem scanFind_seg_match {oL cL s a m r b : List Char} {keep : Char → Bool}
    {ne : Bool} {cond : List Char → Bool}
    (h : scanFind (.seg false oL keep ne cond cL) s = some (a, m, r, b)) :
    m = oL ++ r ++ cL := by
  have ht := scanFind_tryMat h
  obtain ⟨hk, hs, _, _⟩ := tryMat_seg_sound ht
  have hs2 : m ++ b = (oL ++ r ++ cL) ++ (m ++ b).drop m.length := hs
  have hlen : m.length = (oL ++ r ++ cL).length := by
    simp [List.length_append]
    omega
  exact (List.append_inj hs2 hlen).1

/-- Transport of substring-occurrence counts through one insertion-style
`re.sub` with exactly one match: when neither the last character of the match
nor the last character of the addition occurs in `q` (so no occurrence of `q`
can span a splice boundary), the count grows by exactly the number of
occurrences inside the addition. -/
theorem countOc_scanSub_ins {P : Pat} {ins q s a m r b : List Char}
    {ch1 ch2 : Char}
    (hf : scanFind P s = some (a, m, r, b)) (hb : scanCount P b = 0)
    (hq : q ≠ []) (hm : m.getLast? = some ch1) (hch1 : ch1 ∉ q)
    (hins : ins.getLast? = some ch2) (hch2 : ch2 ∉ q) :
    countOc q (scanSub P (insRepl ins) s) = countOc q s + countOc q ins := by
  obtain ⟨hs, hmne, hsub, _⟩ := scanFind_spec (insRepl ins) hf
  rw [scanSub_of_count_zero _ hb] at hsub
  have hinsne : ins ≠ [] := by
    intro hn
    rw [hn] at hins
    cases hins
  have hlast_am : (a ++ m).getLast? = some ch1 := by
    rw [List.getLast?_append_of_ne_nil a hmne]
    exact hm
  have e1 : scanSub P (insRepl ins) s = (a ++ m) ++ (ins ++ b) := by
    rw [hsub]
    simp [insRepl]
  have e2 : s = (a ++ m) ++ b := hs
  rw [e1, e2]
  rw [countOc_append hq (ins ++ b) hlast_am hch1,
      countOc_append hq b hins hch2,
      countOc_append hq b hlast_am hch1]
  omega

theorem match_last_seg {P : Pat} {oL cL : List Char} {keep : Char → Bool}
    {ne : Bool} {cond : List Char → Bool} {ch : Char}
    (hP : P = .seg false oL keep ne cond cL) (hcL : cL.getLast? = some ch)
    {s a m r b : List Char} (hf : scanFind P s = some (a, m, r, b)) :
    m.getLast? = some ch := by
  subst hP
  rw [scanFind_seg_match hf]
  have hne : cL ≠ [] := by
    intro hn
    rw [hn] at hcL
    cases hcL
  rw [List.getLast?_append_of_ne_nil _ hne]
  exact hcL

theorem match_last_lit {P : Pat} {l : List Char} {ch : Char}
    (hP : P = .lit l) (hl : l.getLast? = some ch)
    {s a m r b : List Char} (hf : scanFind P s = some (a, m, r, b)) :
    m.getLast? = some ch := by
  subst hP
  rw [(scanFind_lit_match hf).1]
  exact hl

/-- Buffer state after the first `re.sub` of `add_chinese_processing.py`. -/
def acp_stage1 (c : List Char) : List Char :=
  scanSub acp_build_file_pattern (insRepl acp_build_file_addition) c

def acp_stage2 (c : List Char) : List Char :=
  scanSub acp_file_ref_pattern (insRepl acp_file_ref_addition) (acp_stage1 c)

def acp_stage3 (c : List Char) : List Char :=
  scanSub acp_services_pattern (insRepl acp_services_addition) (acp_stage2 c)

def acp_stage4 (c : List Char) : List Char :=
  scanSub acp_build_phase_pattern (insRepl acp_build_phase_addition) (acp_stage3 c)

theorem acp_mutate_stages (c : List Char) : acp_mutate c = acp_stage4 c := rfl

/-- Buffer states after each `re.sub` of `add_pinyin_openai.py`. -/
def pny_stage1 (c : List Char) : List Char :=
  scanSub pny_build_file_pattern (insRepl pny_build_file_addition) c

def pny_stage2 (c : List Char) : List Char :=
  scanSub pny_share_ext_pattern (insRepl pny_share_ext_addition) (pny_stage1 c)

def pny_stage3 (c : List Char) : List Char :=
  scanSub pny_file_ref_pattern (insRepl pny_file_ref_addition) (pny_stage2 c)

def pny_stage4 (c : List Char) : List Char :=
  scanSub pny_services_pattern (insRepl pny_services_addition) (pny_stage3 c)

def pny_stage5 (c : List Char) : List Char :=
  scanSub pny_build_phase_pattern (insRepl pny_build_phase_addition) (pny_stage4 c)

def pny_stage6 (c : List Char) : List Char :=
  scanSub pny_share_build_pattern (insRepl pny_share_build_addition) (pny_stage5 c)

theorem pny_mutate_stages (c : List Char) : pny_mutate c = pny_stage6 c := rfl

/-- C5: after a successful run on a buffer where every anchor matches (exactly
once at its stage) and the minted identifiers are fresh, the primary
identifier occurs exactly 3 times in the `add_chinese_processing.py` output —
once in the identity-declaration (PBXFileReference) record, once in the
group-membership record, and once as the `fileRef` value of the single
build-registration (PBXBuildFile) record — and the build-record identifier
occurs exactly twice, once in the build-registration record and once in the
build-step-membership (Sources) record.  For `add_pinyin_openai.py`, which
registers the entity against two build targets, the primary identifier occurs
exactly 4 times (identity declaration, group membership, and the `fileRef`
of both build-registration records) and each of the two build-record
identifiers occurs exactly twice (its build-registration record and its build
phase record).  The per-record occurrence counts pin down where each
identifier lives. -/
theorem c5_referential_consistency :
    (∀ c : List Char,
      hasOc acp_display c = false →
      scanCount acp_build_file_pattern c = 1 →
      scanCount acp_file_ref_pattern (acp_stage1 c) = 1 →
      scanCount acp_services_pattern (acp_stage2 c) = 1 →
      scanCount acp_build_phase_pattern (acp_stage3 c) = 1 →
      countOc acp_file_ref_id c = 0 →
      countOc acp_build_file_id c = 0 →
      (acp_run c).written = some (acp_mutate c) ∧
      countOc acp_file_ref_id (acp_mutate c) = 3 ∧
      countOc acp_build_file_id (acp_mutate c) = 2 ∧
      countOc acp_file_ref_id acp_build_file_addition = 1 ∧
      countOc acp_file_ref_id acp_file_ref_addition = 1 ∧
      countOc acp_file_ref_id acp_services_addition = 1 ∧
      countOc acp_file_ref_id acp_build_phase_addition = 0 ∧
      countOc acp_build_file_id acp_build_file_addition = 1 ∧
      countOc acp_build_file_id acp_build_phase_addition = 1 ∧
      countOc acp_build_file_id acp_file_ref_addition = 0 ∧
      countOc acp_build_file_id acp_services_addition = 0) ∧
    (∀ c : List Char,
      hasOc pny_display c = false →
      scanCount pny_build_file_pattern c = 1 →
      scanCount pny_share_ext_pattern (pny_stage1 c) = 1 →
      scanCount pny_file_ref_pattern (pny_stage2 c) = 1 →
      scanCount pny_services_pattern (pny_stage3 c) = 1 →
      scanCount pny_build_phase_pattern (pny_stage4 c) = 1 →
      scanCount pny_share_build_pattern (pny_stage5 c) = 1 →
      countOc pny_file_ref_id c = 0 →
      countOc pny_build_file_id c = 0 →
      countOc pny_build_file_id2 c = 0 →
      (pny_run c).written = some (pny_mutate c) ∧
      countOc pny_file_ref_id (pny_mutate c) = 4 ∧
      countOc pny_build_file_id (pny_mutate c) = 2 ∧
      countOc pny_build_file_id2 (pny_mutate c) = 2 ∧
      countOc pny_file_ref_id pny_build_file_addition = 1 ∧
      countOc pny_file_ref_id pny_share_ext_addition = 1 ∧
      countOc pny_file_ref_id pny_file_ref_addition = 1 ∧
      countOc pny_file_ref_id pny_services_addition = 1 ∧
      countOc pny_build_file_id pny_build_file_addition = 1 ∧
      countOc pny_build_file_id pny_build_phase_addition = 1 ∧
      countOc pny_build_file_id2 pny_share_ext_addition = 1 ∧
      countOc pny_build_file_id2 pny_share_build_addition = 1) := by
  constructor
  · intro c hnp h1 h2 h3 h4 hq1 hq2
    obtain ⟨a1, m1, r1, b1, hf1, hb1⟩ := scanFind_of_count h1
    obtain ⟨a2, m2, r2, b2, hf2, hb2⟩ := scanFind_of_count h2
    obtain ⟨a3, m3, r3, b3, hf3, hb3⟩ := scanFind_of_count h3
    obtain ⟨a4, m4, r4, b4, hf4, hb4⟩ := scanFind_of_count h4
    have hm1 : m1.getLast? = some ('\n') := match_last_seg rfl (by decide) hf1
    have hm2 : m2.getLast? = some ('\n') := match_last_seg rfl (by decide) hf2
    have hm3 : m3.getLast? = some ('\n') := match_last_lit rfl (by decide) hf3
    have hm4 : m4.getLast? = some ('\n') := match_last_lit rfl (by decide) hf4
    have hibf : acp_build_file_addition.getLast? = some ('\n') := by decide
    have hifr : acp_file_ref_addition.getLast? = some ('\n') := by decide
    have hisv : acp_services_addition.getLast? = some ('\n') := by decide
    have hibp : acp_build_phase_addition.getLast? = some ('\n') := by decide
    have hqf : acp_file_ref_id ≠ [] := by decide
    have hnf : ('\n') ∉ acp_file_ref_id := by decide
    have hqb : acp_build_file_id ≠ [] := by decide
    have hnb : ('\n') ∉ acp_build_file_id := by decide
    have ef1 : countOc acp_file_ref_id (acp_stage1 c) =
        countOc acp_file_ref_id c + countOc acp_file_ref_id acp_build_file_addition :=
      countOc_scanSub_ins hf1 hb1 hqf hm1 hnf hibf hnf
    have ef2 : countOc acp_file_ref_id (acp_stage2 c) =
        countOc acp_file_ref_id (acp_stage1 c) +
          countOc acp_file_ref_id acp_file_ref_addition :=
      countOc_scanSub_ins hf2 hb2 hqf hm2 hnf hifr hnf
    have ef3 : countOc acp_file_ref_id (acp_stage3 c) =
        countOc acp_file_ref_id (acp_stage2 c) +
          countOc acp_file_ref_id acp_services_addition :=
      countOc_scanSub_ins hf3 hb3 hqf hm3 hnf hisv hnf
    have ef4 : countOc acp_file_ref_id (acp_stage4 c) =
        countOc acp_file_ref_id (acp_stage3 c) +
          countOc acp_file_ref_id acp_build_phase_addition :=
      countOc_scanSub_ins hf4 hb4 hqf hm4 hnf hibp hnf
    have eb1 : countOc acp_build_file_id (acp_stage1 c) =
        countOc acp_build_file_id c + countOc acp_build_file_id acp_build_file_addition :=
      countOc_scanSub_ins hf1 hb1 hqb hm1 hnb hibf hnb
    have eb2 : countOc acp_build_file_id (acp_stage2 c) =
        countOc acp_build_file_id (acp_stage1 c) +
          countOc acp_build_file_id acp_file_ref_addition :=
      countOc_scanSub_ins hf2 hb2 hqb hm2 hnb hifr hnb
    have eb3 : countOc acp_build_file_id (acp_stage3 c) =
        countOc acp_build_file_id (acp_stage2 c) +
          countOc acp_build_file_id acp_services_addition :=
      countOc_scanSub_ins hf3 hb3 hqb hm3 hnb hisv hnb
    have eb4 : countOc acp_build_file_id (acp_stage4 c) =
        countOc acp_build_file_id (acp_stage3 c) +
          countOc acp_build_file_id acp_build_phase_addition :=
      countOc_scanSub_ins hf4 hb4 hqb hm4 hnb hibp hnb
    refine ⟨by simp [acp_run, hnp], ?_, ?_, by decide, by decide, by decide,
      by decide, by decide, by decide, by decide, by decide⟩
    · rw [acp_mutate_stages, ef4, ef3, ef2, ef1, hq1]
      decide
    · rw [acp_mutate_stages, eb4, eb3, eb2, eb1, hq2]
      decide
  · intro c hnp h1 h2 h3 h4 h5 h6 hq1 hq2 hq3
    obtain ⟨a1, m1, r1, b1, hf1, hb1⟩ := scanFind_of_count h1
    obtain ⟨a2, m2, r2, b2, hf2, hb2⟩ := scanFind_of_count h2
    obtain ⟨a3, m3, r3, b3, hf3, hb3⟩ := scanFind_of_count h3
    obtain ⟨a4, m4, r4, b4, hf4, hb4⟩ := scanFind_of_count h4
    obtain ⟨a5, m5, r5, b5, hf5, hb5⟩ := scanFind_of_count h5
    obtain ⟨a6, m6, r6, b6, hf6, hb6⟩ := scanFind_of_count h6
    have hm1 : m1.getLast? = some ('\n') := match_last_seg rfl (by decide) hf1
    have hm2 : m2.getLast? = some ('\n') := match_last_seg rfl (by decide) hf2
    have hm3 : m3.getLast? = some ('\n') := match_last_seg rfl (by decide) hf3
    have hm4 : m4.getLast? = some ('\n') := match_last_lit rfl (by decide) hf4
    have hm5 : m5.getLast? = some ('\n') := match_last_lit rfl (by decide) hf5
    have hm6 : m6.getLast? = some ('\n') := match_last_lit rfl (by decide) hf6
    have hi1 : pny_build_file_addition.getLast? = some ('\n') := by decide
    have hi2 : pny_share_ext_addition.getLast? = some ('\n') := by decide
    have hi3 : pny_file_ref_addition.getLast? = some ('\n') := by decide
    have hi4 : pny_services_addition.getLast? = some ('\n') := by decide
    have hi5 : pny_build_phase_addition.getLast? = some ('\n') := by decide
    have hi6 : pny_share_build_addition.getLast? = some ('\n') := by decide
    have hqf : pny_file_ref_id ≠ [] := by decide
    have hnf : ('\n') ∉ pny_file_ref_id := by decide
    have hqb : pny_build_file_id ≠ [] := by decide
    have hnb : ('\n') ∉ pny_build_file_id := by decide
    have hqb2 : pny_build_file_id2 ≠ [] := by decide
    have hnb2 : ('\n') ∉ pny_build_file_id2 := by decide
    have ef1 : countOc pny_file_ref_id (pny_stage1 c) =
        countOc pny_file_ref_id c + countOc pny_file_ref_id pny_build_file_addition :=
      countOc_scanSub_ins hf1 hb1 hqf hm1 hnf hi1 hnf
    have ef2 : countOc pny_file_ref_id (pny_stage2 c) =
        countOc pny_file_ref_id (pny_stage1 c) +
          countOc pny_file_ref_id pny_share_ext_addition :=
      countOc_scanSub_ins hf2 hb2 hqf hm2 hnf hi2 hnf
    have ef3 : countOc pny_file_ref_id (pny_stage3 c) =
        countOc pny_file_ref_id (pny_stage2 c) +
          countOc pny_file_ref_id pny_file_ref_addition :=
      countOc_scanSub_ins hf3 hb3 hqf hm3 hnf hi3 hnf
    have ef4 : countOc pny_file_ref_id (pny_stage4 c) =
        countOc pny_file_ref_id (pny_stage3 c) +
          countOc pny_file_ref_id pny_services_addition :=
      countOc_scanSub_ins hf4 hb4 hqf hm4 hnf hi4 hnf
    have ef5 : countOc pny_file_ref_id (pny_stage5 c) =
        countOc pny_file_ref_id (pny_stage4 c) +
          countOc pny_file_ref_id pny_build_phase_addition :=
      countOc_scanSub_ins hf5 hb5 hqf hm5 hnf hi5 hnf
    have ef6 : countOc pny_file_ref_id (pny_stage6 c) =
        countOc pny_file_ref_id (pny_stage5 c) +
          countOc pny_file_ref_id pny_share_build_addition :=
      countOc_scanSub_ins hf6 hb6 hqf hm6 hnf hi6 hnf
    have eb1 : countOc pny_build_file_id (pny_stage1 c) =
        countOc pny_build_file_id c + countOc pny_build_file_id pny_build_file_addition :=
      countOc_scanSub_ins hf1 hb1 hqb hm1 hnb hi1 hnb
    have eb2 : countOc pny_build_file_id (pny_stage2 c) =
        countOc pny_build_file_id (pny_stage1 c) +
          countOc pny_build_file_id pny_share_ext_addition :=
      countOc_scanSub_ins hf2 hb2 hqb hm2 hnb hi2 hnb
    have eb3 : countOc pny_build_file_id (pny_stage3 c) =
        countOc pny_build_file_id (pny_stage2 c) +
          countOc pny_build_file_id pny_file_ref_addition :=
      countOc_scanSub_ins hf3 hb3 hqb hm3 hnb hi3 hnb
    have eb4 : countOc pny_build_file_id (pny_stage4 c) =
        countOc pny_build_file_id (pny_stage3 c) +
          countOc pny_build_file_id pny_services_addition :=
      countOc_scanSub_ins hf4 hb4 hqb hm4 hnb hi4 hnb
    have eb5 : countOc pny_build_file_id (pny_stage5 c) =
        countOc pny_build_file_id (pny_stage4 c) +
          countOc pny_build_file_id pny_build_phase_addition :=
      countOc_scanSub_ins hf5 hb5 hqb hm5 hnb hi5 hnb
    have eb6 : countOc pny_build_file_id (pny_stage6 c) =
        countOc pny_build_file_id (pny_stage5 c) +
          countOc pny_build_file_id pny_share_build_addition :=
      countOc_scanSub_ins hf6 hb6 hqb hm6 hnb hi6 hnb
    have ec1 : countOc pny_build_file_id2 (pny_stage1 c) =
        countOc pny_build_file_id2 c + countOc pny_build_file_id2 pny_build_file_addition :=
      countOc_scanSub_ins hf1 hb1 hqb2 hm1 hnb2 hi1 hnb2
    have ec2 : countOc pny_build_file_id2 (pny_stage2 c) =
        countOc pny_build_file_id2 (pny_stage1 c) +
          countOc pny_build_file_id2 pny_share_ext_addition :=
      countOc_scanSub_ins hf2 hb2 hqb2 hm2 hnb2 hi2 hnb2
    have ec3 : countOc pny_build_file_id2 (pny_stage3 c) =
        countOc pny_build_file_id2 (pny_stage2 c) +
          countOc pny_build_file_id2 pny_file_ref_addition :=
      countOc_scanSub_ins hf3 hb3 hqb2 hm3 hnb2 hi3 hnb2
    have ec4 : countOc pny_build_file_id2 (pny_stage4 c) =
        countOc pny_build_file_id2 (pny_stage3 c) +
          countOc pny_build_file_id2 pny_services_addition :=
      countOc_scanSub_ins hf4 hb4 hqb2 hm4 hnb2 hi4 hnb2
    have ec5 : countOc pny_build_file_id2 (pny_stage5 c) =
        countOc pny_build_file_id2 (pny_stage4 c) +
          countOc pny_build_file_id2 pny_build_phase_addition :=
      countOc_scanSub_ins hf5 hb5 hqb2 hm5 hnb2 hi5 hnb2
    have ec6 : countOc pny_build_file_id2 (pny_stage6 c) =
        countOc pny_build_file_id2 (pny_stage5 c) +
          countOc pny_build_file_id2 pny_share_build_addition :=
      countOc_scanSub_ins hf6 hb6 hqb2 hm6 hnb2 hi6 hnb2
    refine ⟨by simp [pny_run, hnp], ?_, ?_, ?_, by decide, by decide, by decide,
      by decide, by decide, by decide, by decide, by decide⟩
    · rw [pny_mutate_stages, ef6, ef5, ef4, ef3, ef2, ef1, hq1]
      decide
    · rw [pny_mutate_stages, eb6, eb5, eb4, eb3, eb2, eb1, hq2]
      decide
    · rw [pny_mutate_stages, ec6, ec5, ec4, ec3, ec2, ec1, hq3]
      decide

/-- A minimal manifest containing each `add_chinese_processing.py` anchor
record exactly once and neither minted identifier. -/
def c5_acp_input : List Char :=
  ("A\n\t\t3D9B1A211234567890123458 /* PinyinServiceOpenAI.swift in Sources */ = \x7bisa = PBXBuildFile; fileRef = 3D9B1A201234567890123457 /* PinyinServiceOpenAI.swift */; \x7d;\nB\n\t\t3D9B1A201234567890123457 /* PinyinServiceOpenAI.swift */ = \x7bisa = PBXFileReference; \x7d;\nC\n\t\t\t\t3D9B1A201234567890123457 /* PinyinServiceOpenAI.swift */,\nD\n\t\t\t\t3D9B1A211234567890123458 /* PinyinServiceOpenAI.swift in Sources */,\nE\n").toList

/-- A minimal manifest containing each `add_pinyin_openai.py` anchor record
exactly once and none of the three minted identifiers. -/
def c5_pny_input : List Char :=
  ("a\n\t\t3D9B1A0E1234567890123456 /* PinyinServiceImpl.swift in Sources */ = \x7bisa = PBXBuildFile; fileRef = 3D9B1A0F1234567890123456 /* PinyinServiceImpl.swift */; \x7d;\nb\n\t\t3D4F30C32C6FC87E002CC01C /* PinyinServiceImpl.swift in Sources */ = \x7bisa = PBXBuildFile; fileRef = 3D9B1A0F1234567890123456 /* PinyinServiceImpl.swift */; \x7d;\nc\n\t\t3D9B1A0F1234567890123456 /* PinyinServiceImpl.swift */ = \x7bisa = PBXFileReference; \x7d;\nd\n\t\t\t\t3D9B1A0F1234567890123456 /* PinyinServiceImpl.swift */,\ne\n\t\t\t\t3D9B1A0E1234567890123456 /* PinyinServiceImpl.swift in Sources */,\nf\n\t\t\t\t3D4F30C32C6FC87E002CC01C /* PinyinServiceImpl.swift in Sources */,\ng\n").toList

/-- Witness for C5 at concrete manifests for both scripts. -/
theorem c5_referential_consistency_witness :
    (countOc acp_file_ref_id (acp_mutate c5_acp_input) = 3 ∧
     countOc acp_build_file_id (acp_mutate c5_acp_input) = 2) ∧
    (countOc pny_file_ref_id (pny_mutate c5_pny_input) = 4 ∧
     countOc pny_build_file_id (pny_mutate c5_pny_input) = 2 ∧
     countOc pny_build_file_id2 (pny_mutate c5_pny_input) = 2) :=
  ⟨⟨((c5_referential_consistency.1 c5_acp_input (by decide) (by decide)
      (by decide) (by decide) (by decide) (by decide) (by decide)).2.1),
    ((c5_referential_consistency.1 c5_acp_input (by decide) (by decide)
      (by decide) (by decide) (by decide) (by decide) (by decide)).2.2.1)⟩,
   ⟨((c5_referential_consistency.2 c5_pny_input (by decide) (by decide)
      (by decide) (by decide) (by decide) (by decide) (by decide) (by decide)
      (by decide) (by decide)).2.1),
    ((c5_referential_consistency.2 c5_pny_input (by decide) (by decide)
      (by decide) (by decide) (by decide) (by decide) (by decide) (by decide)
      (by decide) (by decide)).2.2.1),
    ((c5_referential_consistency.2 c5_pny_input (by decide) (by decide)
      (by decide) (by decide) (by decide) (by decide) (by decide) (by decide)
      (by decide) (by decide)).2.2.2.1)⟩⟩

/-- C7 (amended): on a run that passes the presence check and in which every
stage's anchor pattern matches exactly once, each of the four substitutions
splices its record immediately after its anchor match and leaves everything
else byte-identical, so the written buffer differs from the input by exactly
the four inserted blocks. -/
theorem c7_amended_four_splices (c : List Char)
    (hnp : hasOc acp_display c = false)
    (h1 : scanCount acp_build_file_pattern c = 1)
    (h2 : scanCount acp_file_ref_pattern (acp_stage1 c) = 1)
    (h3 : scanCount acp_services_pattern (acp_stage2 c) = 1)
    (h4 : scanCount acp_build_phase_pattern (acp_stage3 c) = 1) :
    (acp_run c).written = some (acp_mutate c) ∧
    ∃ a1 m1 b1 a2 m2 b2 a3 m3 b3 a4 m4 b4 : List Char,
      c = a1 ++ m1 ++ b1 ∧
      acp_stage1 c = a1 ++ m1 ++ acp_build_file_addition ++ b1 ∧
      acp_stage1 c = a2 ++ m2 ++ b2 ∧
      acp_stage2 c = a2 ++ m2 ++ acp_file_ref_addition ++ b2 ∧
      acp_stage2 c = a3 ++ m3 ++ b3 ∧
      acp_stage3 c = a3 ++ m3 ++ acp_services_addition ++ b3 ∧
      acp_stage3 c = a4 ++ m4 ++ b4 ∧
      acp_mutate c = a4 ++ m4 ++ acp_build_phase_addition ++ b4 := by
  obtain ⟨a1, m1, r1, b1, hf1, hs1, hm1, hb1, hsub1⟩ :=
    subst_once (insRepl acp_build_file_addition) h1
  obtain ⟨a2, m2, r2, b2, hf2, hs2, hm2, hb2, hsub2⟩ :=
    subst_once (insRepl acp_file_ref_addition) h2
  obtain ⟨a3, m3, r3, b3, hf3, hs3, hm3, hb3, hsub3⟩ :=
    subst_once (insRepl acp_services_addition) h3
  obtain ⟨a4, m4, r4, b4, hf4, hs4, hm4, hb4, hsub4⟩ :=
    subst_once (insRepl acp_build_phase_addition) h4
  refine ⟨by simp [acp_run, hnp], a1, m1, b1, a2, m2, b2, a3, m3, b3,
    a4, m4, b4, hs1, ?_, hs2, ?_, hs3, ?_, hs4, ?_⟩
  · show acp_stage1 c = a1 ++ m1 ++ acp_build_file_addition ++ b1
    rw [show acp_stage1 c =
      scanSub acp_build_file_pattern (insRepl acp_build_file_addition) c from rfl,
      hsub1]
    simp [insRepl]
  · rw [show acp_stage2 c =
      scanSub acp_file_ref_pattern (insRepl acp_file_ref_addition) (acp_stage1 c)
        from rfl, hsub2]
    simp [insRepl]
  · rw [show acp_stage3 c =
      scanSub acp_services_pattern (insRepl acp_services_addition) (acp_stage2 c)
        from rfl, hsub3]
    simp [insRepl]
  · rw [acp_mutate_stages, show acp_stage4 c =
      scanSub acp_build_phase_pattern (insRepl acp_build_phase_addition)
        (acp_stage3 c) from rfl, hsub4]
    simp [insRepl]

/-- Witness for the amended C7 at a concrete manifest. -/
theorem c7_amended_four_splices_witness :
    (acp_run c5_acp_input).written = some (acp_mutate c5_acp_input) ∧
    ∃ a1 m1 b1 a2 m2 b2 a3 m3 b3 a4 m4 b4 : List Char,
      c5_acp_input = a1 ++ m1 ++ b1 ∧
      acp_stage1 c5_acp_input = a1 ++ m1 ++ acp_build_file_addition ++ b1 ∧
      acp_stage1 c5_acp_input = a2 ++ m2 ++ b2 ∧
      acp_stage2 c5_acp_input = a2 ++ m2 ++ acp_file_ref_addition ++ b2 ∧
      acp_stage2 c5_acp_input = a3 ++ m3 ++ b3 ∧
      acp_stage3 c5_acp_input = a3 ++ m3 ++ acp_services_addition ++ b3 ∧
      acp_stage3 c5_acp_input = a4 ++ m4 ++ b4 ∧
      acp_mutate c5_acp_input = a4 ++ m4 ++ acp_build_phase_addition ++ b4 :=
  c7_amended_four_splices c5_acp_input (by decide) (by decide) (by decide)
    (by decide) (by decide)

theorem scanFind_none_count {P : Pat} :
    ∀ {s : List Char}, scanFind P s = none → scanCount P s = 0 := by
  intro s
  induction s with
  | nil => intro _; rw [scanCount_nil]
  | cons c cs ih =>
    intro h
    cases htm : tryMat P (c :: cs) with
    | some kr =>
      obtain ⟨k, r⟩ := kr
      rw [scanFind_cons_some htm] at h
      cases h
    | none =>
      rw [scanFind_cons_none htm] at h
      rw [scanCount_cons_none htm]
      cases hf : scanFind P cs with
      | none => exact ih hf
      | some x =>
        obtain ⟨a, m, r, b⟩ := x
        rw [hf] at h
        cases h

/-- An insertion-style `re.sub` either leaves the buffer unchanged or the
result contains the addition as a contiguous block. -/
theorem scanSub_id_or_contains (P : Pat) (ins s : List Char) :
    scanSub P (insRepl ins) s = s ∨
    ∃ x m y, scanSub P (insRepl ins) s = x ++ m ++ ins ++ y := by
  cases hf : scanFind P s with
  | none =>
    left
    exact scanSub_of_count_zero _ (scanFind_none_count hf)
  | some x =>
    obtain ⟨a, m, r, b⟩ := x
    right
    obtain ⟨hs, hm, hsub, _⟩ := scanFind_spec (insRepl ins) hf
    refine ⟨a, m, scanSub P (insRepl ins) b, ?_⟩
    rw [hsub]
    simp [insRepl]

theorem hasOc_append_r {q : List Char} :
    ∀ {x y : List Char}, hasOc q y = true → hasOc q (x ++ y) = true := by
  intro x
  induction x with
  | nil => intro y h; exact h
  | cons c x' ih =>
    intro y h
    have h2 : hasOc q (c :: (x' ++ y)) =
        (startsWB q (c :: (x' ++ y)) || hasOc q (x' ++ y)) := rfl
    rw [List.cons_append, h2, ih h]
    simp

theorem hasOc_append_l {q : List Char} :
    ∀ {x y : List Char}, hasOc q x = true → hasOc q (x ++ y) = true := by
  intro x
  induction x with
  | nil => intro y h; cases h
  | cons c x' ih =>
    intro y h
    have h2 : hasOc q (c :: x') = (startsWB q (c :: x') || hasOc q x') := rfl
    rw [h2] at h
    have h3 : hasOc q (c :: (x' ++ y)) =
        (startsWB q (c :: (x' ++ y)) || hasOc q (x' ++ y)) := rfl
    rw [List.cons_append, h3]
    cases hs : startsWB q (c :: x') with
    | true =>
      have hm := startsW_mono y hs
      rw [List.cons_append] at hm
      rw [hm]
      simp
    | false =>
      rw [hs] at h
      simp at h
      rw [ih h]
      simp

theorem scanSub_changed_hasOc {P : Pat} {ins q s : List Char}
    (hq : hasOc q ins = true)
    (hne : scanSub P (insRepl ins) s ≠ s) :
    hasOc q (scanSub P (insRepl ins) s) = true := by
  cases scanSub_id_or_contains P ins s with
  | inl h => exact absurd h hne
  | inr h =>
    obtain ⟨x, m, y, h⟩ := h
    rw [h]
    exact hasOc_append_l (hasOc_append_r hq)

theorem scanSub_id_of_not_hasOc {P : Pat} {ins q s : List Char}
    (hq : hasOc q ins = true)
    (hno : hasOc q (scanSub P (insRepl ins) s) = false) :
    scanSub P (insRepl ins) s = s := by
  by_cases heq : scanSub P (insRepl ins) s = s
  · exact heq
  · rw [scanSub_changed_hasOc hq heq] at hno
    cases hno

/-- C6: running `add_chinese_processing.py` twice yields the same on-disk
buffer as running it once, and whenever the first run actually mutated the
file the second run takes the "already present" no-op path (exit 0, nothing
written): every record the script can insert contains the display name, so a
mutating first run makes the presence check succeed on the second. -/
theorem c6_idempotent (c : List Char) :
    acp_disk (acp_disk c) = acp_disk c ∧
    (acp_disk c ≠ c → acp_run (acp_disk c) = ⟨0, acp_already_msg, none⟩) := by
  by_cases hp : hasOc acp_display c = true
  · have hd : acp_disk c = c := by simp [acp_disk, acp_run, hp]
    constructor
    · rw [hd]
      exact hd
    · intro hne
      exact absurd hd hne
  · have hp2 : hasOc acp_display c = false := by
      cases hh : hasOc acp_display c
      · rfl
      · exact absurd hh hp
    have hd : acp_disk c = acp_mutate c := by
      simp [acp_disk, acp_run, hp2]
    by_cases hm : hasOc acp_display (acp_mutate c) = true
    · have hrun : acp_run (acp_mutate c) = ⟨0, acp_already_msg, none⟩ := by
        simp [acp_run, hm]
      have hdd : acp_disk (acp_mutate c) = acp_mutate c := by
        simp [acp_disk, hrun]
      constructor
      · rw [hd, hdd]
      · intro _
        rw [hd]
        exact hrun
    · have hm2 : hasOc acp_display (acp_mutate c) = false := by
        cases hh : hasOc acp_display (acp_mutate c)
        · rfl
        · exact absurd hh hm
      have hno4 : hasOc acp_display (acp_stage4 c) = false := by
        rw [← acp_mutate_stages]
        exact hm2
      have e4 : acp_stage4 c = acp_stage3 c :=
        scanSub_id_of_not_hasOc (by decide) hno4
      have hno3 : hasOc acp_display (acp_stage3 c) = false := by
        rw [← e4]
        exact hno4
      have e3 : acp_stage3 c = acp_stage2 c :=
        scanSub_id_of_not_hasOc (by decide) hno3
      have hno2 : hasOc acp_display (acp_stage2 c) = false := by
        rw [← e3]
        exact hno3
      have e2 : acp_stage2 c = acp_stage1 c :=
        scanSub_id_of_not_hasOc (by decide) hno2
      have hno1 : hasOc acp_display (acp_stage1 c) = false := by
        rw [← e2]
        exact hno2
      have e1 : acp_stage1 c = c :=
        scanSub_id_of_not_hasOc (by decide) hno1
      have hmc : acp_mutate c = c := by
        rw [acp_mutate_stages, e4, e3, e2, e1]
      have hdc : acp_disk c = c := by
        rw [hd, hmc]
      constructor
      · rw [hdc]
        exact hdc
      · intro hne
        exact absurd hdc hne

/-- Witness for C6 at a concrete manifest where the first run mutates. -/
theorem c6_idempotent_witness :
    acp_disk (acp_disk c5_acp_input) = acp_disk c5_acp_input ∧
    acp_run (acp_disk c5_acp_input) = ⟨0, acp_already_msg, none⟩ :=
  ⟨(c6_idempotent c5_acp_input).1,
   (c6_idempotent c5_acp_input).2 (by decide)⟩

/-! ## Embedding of `fix_logging.py` (and `fix_app_logging.py`)

Ten (resp. twelve) sequential `re.sub` passes over a Swift source text.  Each
pattern again has the deterministic literal/run/literal shape: the message run
`[^"]*` is forced to be the maximal quote-free run (the following `"` closes
it), embedded keywords such as `error` in `[^"]*error[^"]*` become a
containment condition on the captured run, and `\w+` is a maximal word run
followed by `(`, which is not a word character. -/

/-- `[^"]`. -/
def notQuote (c : Char) : Bool := !(c == '"')

/-- ASCII word character, the fragment of Python's `\w` exercised by the
repository's logger levels (`debug`, `error`, `warning`, `info`). -/
def isWordCh (c : Char) : Bool :=
  (('a' ≤ c && c ≤ 'z') || ('A' ≤ c && c ≤ 'Z')) ||
    (('0' ≤ c && c ≤ '9') || c == '_')

def lowList (m : List Char) : List Char := m.map lowC

/-- `re.IGNORECASE` containment of a (lowercase) keyword in the message run:
the condition under which `[^"]*key[^"]*` matches the whole run. -/
def containsCI (key m : List Char) : Bool := hasOc key (lowList m)

/-- Case-sensitive keyword containment (`[^"]*key[^"]*` without
`re.IGNORECASE`). -/
def containsOc (key m : List Char) : Bool := hasOc key m

def seqOcAux (k1 k2 : List Char) : List Char → Bool
  | [] => false
  | c :: s =>
    (startsWB k1 (c :: s) && hasOc k2 ((c :: s).drop k1.length)) ||
      seqOcAux k1 k2 s

/-- Condition for `k1[^"]*k2` inside a quote-free run (used by the
`No [^"]* found` rule of `fix_app_logging.py`), case-insensitively: some
occurrence of `k1` is followed, at or after its end, by an occurrence of
`k2`. -/
def seqCI (k1 k2 : List Char) (m : List Char) : Bool :=
  seqOcAux k1 k2 (lowList m)

/-- Condition for the `TTS[^:]*: key[^"]*` info rules of `fix_logging.py`
(case-sensitive): the run starts with `TTS` and its first colon at or after
position 3 starts the literal `key` (which itself begins with `:`). -/
def ttsCond (key : List Char) (m : List Char) : Bool :=
  startsWB (("TTS").toList) m &&
    startsWB key ((m.drop 3).dropWhile (fun c => !(c == ':')))

/-- A well-formed logger call `logger.LVL("MSG")`. -/
def mkCall (lvl m : List Char) : List Char :=
  ("logger.").toList ++ lvl ++ ("(\"").toList ++ m ++ ("\")").toList

/-- The malformed-call pattern `logger\."([^"]+)"\)`. -/
def malformedPat : Pat :=
  .seg false (("logger.\"").toList) notQuote true (fun _ => true)
    (("\")").toList)

/-- A severity-rule pattern `logger\.debug\("(<cond>)"\)`, optionally
`re.IGNORECASE`. -/
def dbgPat (ci : Bool) (cond : List Char → Bool) : Pat :=
  .seg ci (("logger.debug(\"").toList) notQuote false cond (("\")").toList)

/-- Replacement `logger.LVL("\1")`. -/
def sevRepl (lvl : List Char) : List Char → List Char → List Char :=
  fun _ r => mkCall lvl r

/-- The prefix-strip pattern `(logger\.\w+\()"PREFIX` with replacement
`\1"`. -/
def stripPat (pre : List Char) : Pat :=
  .seg false (("logger.").toList) isWordCh true (fun _ => true)
    ((("(\"").toList) ++ pre)

def stripRepl : List Char → List Char → List Char :=
  fun _ r => ("logger.").toList ++ r ++ ("(\"").toList

/-- The ten passes of `fix_logging.py`, in source order. -/
def fl_pass1 (s : List Char) : List Char :=
  scanSub malformedPat (sevRepl (("debug").toList)) s

def fl_pass2 (s : List Char) : List Char :=
  scanSub (dbgPat true (containsCI (("error").toList)))
    (sevRepl (("error").toList)) s

def fl_pass3 (s : List Char) : List Char :=
  scanSub (dbgPat true (containsCI (("failed").toList)))
    (sevRepl (("error").toList)) s

def fl_pass4 (s : List Char) : List Char :=
  scanSub (dbgPat true (containsCI (("invalid").toList)))
    (sevRepl (("error").toList)) s

def fl_pass5 (s : List Char) : List Char :=
  scanSub (dbgPat true (containsCI (("not configured").toList)))
    (sevRepl (("warning").toList)) s

def fl_pass6 (s : List Char) : List Char :=
  scanSub (dbgPat true (containsCI (("not properly").toList)))
    (sevRepl (("warning").toList)) s

def fl_pass7 (s : List Char) : List Char :=
  scanSub (dbgPat false (ttsCond ((": generateAudio").toList)))
    (sevRepl (("info").toList)) s

def fl_pass8 (s : List Char) : List Char :=
  scanSub (dbgPat false (ttsCond ((": Received").toList)))
    (sevRepl (("info").toList)) s

def fl_pass9 (s : List Char) : List Char :=
  scanSub (dbgPat false (ttsCond ((": Audio saved").toList)))
    (sevRepl (("info").toList)) s

def fl_pass10 (s : List Char) : List Char :=
  scanSub (stripPat (("TTSService: ").toList)) stripRepl s

/-- The whole `fix_logging.py` rewrite: the ten `re.sub` passes applied one
after another in the fixed source order. -/
def fix_logging (s : List Char) : List Char :=
  fl_pass10 (fl_pass9 (fl_pass8 (fl_pass7 (fl_pass6 (fl_pass5 (fl_pass4
    (fl_pass3 (fl_pass2 (fl_pass1 s)))))))))

/-- The twelve passes of `fix_app_logging.py`, in source order. -/
def fa_pass1 (s : List Char) : List Char :=
  scanSub malformedPat (sevRepl (("debug").toList)) s

def fa_pass2 (s : List Char) : List Char :=
  scanSub (dbgPat true (containsCI (("error").toList)))
    (sevRepl (("error").toList)) s

def fa_pass3 (s : List Char) : List Char :=
  scanSub (dbgPat true (containsCI (("failed").toList)))
    (sevRepl (("error").toList)) s

def fa_pass4 (s : List Char) : List Char :=
  scanSub (dbgPat true (seqCI (("no ").toList) ((" found").toList)))
    (sevRepl (("info").toList)) s

def fa_pass5 (s : List Char) : List Char :=
  scanSub (dbgPat false (containsOc (("Processing").toList)))
    (sevRepl (("info").toList)) s

def fa_pass6 (s : List Char) : List Char :=
  scanSub (dbgPat false (containsOc (("Looking for").toList)))
    (sevRepl (("debug").toList)) s

def fa_pass7 (s : List Char) : List Char :=
  scanSub (dbgPat false (containsOc (("Found").toList)))
    (sevRepl (("info").toList)) s

def fa_pass8 (s : List Char) : List Char :=
  scanSub (dbgPat false (containsOc (("Successfully").toList)))
    (sevRepl (("info").toList)) s

def fa_pass9 (s : List Char) : List Char :=
  scanSub (dbgPat false (containsOc (("loaded").toList)))
    (sevRepl (("info").toList)) s

def fa_pass10 (s : List Char) : List Char :=
  scanSub (dbgPat false (containsOc (("exists").toList)))
    (sevRepl (("debug").toList)) s

def fa_pass11 (s : List Char) : List Char :=
  scanSub (dbgPat false (containsOc (("Cleaned up").toList)))
    (sevRepl (("info").toList)) s

def fa_pass12 (s : List Char) : List Char :=
  scanSub (stripPat (("AppState: ").toList)) stripRepl s

/-- The whole `fix_app_logging.py` rewrite. -/
def fix_app_logging (s : List Char) : List Char :=
  fa_pass12 (fa_pass11 (fa_pass10 (fa_pass9 (fa_pass8 (fa_pass7 (fa_pass6
    (fa_pass5 (fa_pass4 (fa_pass3 (fa_pass2 (fa_pass1 s)))))))))))

/-- Buffer for the C10 counterexample: a malformed call whose message ends in
`logger.`. -/
def c10_cex_input : List Char := ("logger.\"xlogger.\")abc\")").toList

/-- Counterexample to C10 as stated: the first rule rewrites the malformed
call it matches, but the rewritten output still contains text of the
malformed form `logger."…")` (here `logger.")abc")` inside
`logger.debug("xlogger.")abc")`), which no later rule removes. -/
theorem c10_counterexample :
    scanCount malformedPat c10_cex_input = 1 ∧
    fix_logging c10_cex_input = ("logger.debug(\"xlogger.\")abc\")").toList ∧
    scanCount malformedPat (fix_logging c10_cex_input) = 1 := by
  decide

theorem toNat_ofNat_valid (n : Nat) (h : n.isValidChar) :
    (Char.ofNat n).toNat = n := by
  unfold Char.ofNat
  rw [dif_pos h]
  unfold Char.ofNatAux
  simp [Char.toNat, UInt32.toNat, BitVec.toNat_ofNatLt]

theorem lowC_fix {c d : Char} (hne : c ≠ d) (hd1 : d.toNat < 65)
    (hd2 : lowC d = d) : lowC c ≠ d := by
  unfold lowC
  by_cases hr : 'A' ≤ c ∧ c ≤ 'Z'
  · rw [if_pos hr]
    intro he
    have h65 : 65 ≤ c.toNat := hr.1
    have h90 : c.toNat ≤ 90 := hr.2
    have hv : (c.toNat + 32).isValidChar := Or.inl (by omega)
    have ht := toNat_ofNat_valid _ hv
    rw [he] at ht
    omega
  · rw [if_neg hr]
    exact hne

theorem chEq_ne_of_fix {ci : Bool} {c d : Char} (hne : c ≠ d)
    (hd1 : d.toNat < 65) (hd2 : lowC d = d) : chEq ci c d = false := by
  unfold chEq
  cases ci with
  | false =>
    simp
    exact hne
  | true =>
    simp [hd2]
    exact lowC_fix hne hd1 hd2

theorem chEq_quote_left {ci : Bool} {c : Char} (h : notQuote c = true) :
    chEq ci c '"' = false := by
  have hne : c ≠ '"' := by
    simp [notQuote] at h
    exact h
  exact chEq_ne_of_fix hne (by decide) (by decide)

theorem chEq_sym_false {ci : Bool} {c d : Char} (h : chEq ci c d = false) :
    chEq ci d c = false := by
  unfold chEq at *
  cases ci with
  | false =>
    simp at *
    intro he
    exact h he.symm
  | true =>
    simp at *
    intro he
    exact h he.symm

theorem chEq_quote_right {ci : Bool} {c : Char} (h : notQuote c = true) :
    chEq ci '"' c = false :=
  chEq_sym_false (chEq_quote_left h)

theorem chEq_refl (ci : Bool) (c : Char) : chEq ci c c = true := by
  unfold chEq
  cases ci <;> simp

def noQuoteL (l : List Char) : Bool := l.all notQuote

/-- Pairwise (possibly case-insensitive) equality of equal-length lists. -/
def eqListC (ci : Bool) : List Char → List Char → Bool
  | [], [] => true
  | a :: as, b :: bs => chEq ci a b && eqListC ci as bs
  | _, _ => false

theorem eqListC_refl (ci : Bool) : ∀ l : List Char, eqListC ci l l = true := by
  intro l
  induction l with
  | nil => rfl
  | cons c cs ih => simp [eqListC, chEq_refl, ih]

theorem eqListC_length {ci : Bool} :
    ∀ {x y : List Char}, eqListC ci x y = true → x.length = y.length := by
  intro x
  induction x with
  | nil =>
    intro y h
    cases y with
    | nil => rfl
    | cons b bs => simp [eqListC] at h
  | cons a as ih =>
    intro y h
    cases y with
    | nil => simp [eqListC] at h
    | cons b bs =>
      simp only [eqListC, Bool.and_eq_true] at h
      simp [ih h.2]

theorem noQuoteL_suffix {x y : List Char} (h : x <:+ y)
    (hy : noQuoteL y = true) : noQuoteL x = true := by
  simp only [noQuoteL, List.all_eq_true] at *
  intro c hc
  exact hy c (h.subset hc)

theorem noQuoteL_drop {x : List Char} (n : Nat) (hx : noQuoteL x = true) :
    noQuoteL (x.drop n) = true := by
  simp only [noQuoteL, List.all_eq_true] at *
  intro c hc
  exact hx c (List.drop_subset n x hc)

/-- Matching the literal `oLp ++ ['"']` against `x ++ '"' :: rest`, where
`oLp` and `x` are quote-free: the quotes must line up, so the literal matches
exactly when `oLp` matches `x`. -/
theorem dropPrefC_quote {ci : Bool} :
    ∀ {oLp x rest : List Char}, noQuoteL oLp = true → noQuoteL x = true →
      dropPrefC ci (oLp ++ ['"']) (x ++ '"' :: rest) =
        if eqListC ci oLp x then some rest else none := by
  intro oLp
  induction oLp with
  | nil =>
    intro x rest ho hx
    cases x with
    | nil =>
      simp [dropPrefC, eqListC, chEq_refl]
    | cons b bs =>
      have hb : notQuote b = true := by
        simp [noQuoteL] at hx
        exact hx.1
      simp [dropPrefC, eqListC, chEq_quote_right hb]
  | cons a as ih =>
    intro x rest ho hx
    have ha : notQuote a = true := by
      simp [noQuoteL] at ho
      exact ho.1
    have has : noQuoteL as = true := by
      simp [noQuoteL] at ho ⊢
      exact ho.2
    cases x with
    | nil =>
      simp [dropPrefC, eqListC, chEq_quote_left ha]
    | cons b bs =>
      have hbs : noQuoteL bs = true := by
        simp [noQuoteL] at hx ⊢
        exact hx.2
      have hstep : dropPrefC ci ((a :: as) ++ ['"']) ((b :: bs) ++ '"' :: rest)
          = if chEq ci a b then dropPrefC ci (as ++ ['"']) (bs ++ '"' :: rest)
            else none := by
        rw [List.cons_append, List.cons_append]
        rfl
      rw [hstep]
      by_cases hab : chEq ci a b = true
      · rw [if_pos hab, ih has hbs]
        simp [eqListC, hab]
      · have hab2 : chEq ci a b = false := by
          cases hh : chEq ci a b
          · rfl
          · exact absurd hh hab
        rw [if_neg hab]
        simp [eqListC, hab2]

theorem takeWhile_stop {p : Char → Bool} {c : Char} (hc : p c = false) :
    ∀ {w : List Char} (rest : List Char), w.all p = true →
      (w ++ c :: rest).takeWhile p = w ∧
      (w ++ c :: rest).dropWhile p = c :: rest := by
  intro w
  induction w with
  | nil =>
    intro rest _
    constructor
    · simp [List.takeWhile, hc]
    · simp [List.dropWhile, hc]
  | cons a as ih =>
    intro rest hall
    simp only [List.all_cons, Bool.and_eq_true] at hall
    have := ih rest hall.2
    constructor
    · simp [List.takeWhile, hall.1, this.1]
    · simp [List.dropWhile, hall.1, this.2]

theorem noQuote_all_run {m : List Char} (hm : noQuoteL m = true) :
    m.all notQuote = true := hm

/-- The common shape of `fix_logging.py`'s call patterns: a quote-free
literal, an opening quote, the quote-free message run, then `")`. -/
def shapeA (ci : Bool) (oLp : List Char) (ne : Bool)
    (cond : List Char → Bool) : Pat :=
  .seg ci (oLp ++ ['"']) notQuote ne cond ['"', ')']

theorem dbgPat_shape (ci : Bool) (cond : List Char → Bool) :
    dbgPat ci cond = shapeA ci (("logger.debug(").toList) false cond := by
  unfold dbgPat shapeA
  rw [show ("logger.debug(\"").toList = ("logger.debug(").toList ++ ['"'] by
        decide,
      show ("\")").toList = ['"', ')'] by decide]

theorem malformedPat_shape :
    malformedPat = shapeA false (("logger.").toList) true (fun _ => true) := by
  unfold malformedPat shapeA
  rw [show ("logger.\"").toList = ("logger.").toList ++ ['"'] by decide,
      show ("\")").toList = ['"', ')'] by decide]

theorem dropPrefC_nonempty_nil {ci : Bool} {p : List Char} (h : p ≠ []) :
    dropPrefC ci p [] = none := by
  cases p with
  | nil => exact absurd rfl h
  | cons a as => rfl

theorem tryMat_shapeA_site {ci ne : Bool} {cond : List Char → Bool}
    {oLp x m : List Char} (ho : noQuoteL oLp = true) (hx : noQuoteL x = true)
    (hm : noQuoteL m = true) :
    tryMat (shapeA ci oLp ne cond) (x ++ '"' :: (m ++ ['"', ')'])) =
      if eqListC ci oLp x && ((!(ne && m.isEmpty)) && cond m)
      then some ((oLp ++ ['"']).length + m.length + 2, m) else none := by
  have htk := takeWhile_stop (p := notQuote) (c := '"') (by decide) [')']
    (noQuote_all_run hm)
  simp only [shapeA, tryMat]
  rw [dropPrefC_quote ho hx]
  by_cases he : eqListC ci oLp x = true
  · rw [if_pos he]
    simp only [he, Bool.true_and]
    have hm2 : (m ++ ['"', ')']) = m ++ '"' :: [')'] := rfl
    rw [hm2, htk.1, htk.2]
    by_cases hne : (ne && m.isEmpty) = true
    · simp [hne]
    · have hne2 : (ne && m.isEmpty) = false := by
        cases hh : (ne && m.isEmpty)
        · rfl
        · exact absurd hh hne
      rw [hne2]
      simp only [Bool.false_eq_true, if_false, Bool.not_false, Bool.true_and]
      by_cases hc : cond m = true
      · rw [if_pos hc, hc, if_pos rfl]
        have hd : dropPrefC ci ['"', ')'] ('"' :: [')']) = some [] := by
          simp [dropPrefC, chEq_refl]
        rw [hd]
        have hk : ¬((oLp ++ ['"']).length + m.length + (['"', ')'] : List Char).length = 0) := by
          simp [List.length_append]
        rw [if_neg hk]
        simp [List.length_append]
      · have hc2 : cond m = false := by
          cases hh : cond m
          · rfl
          · exact absurd hh hc
        rw [if_neg hc, hc2]
        simp
  · have he2 : eqListC ci oLp x = false := by
      cases hh : eqListC ci oLp x
      · rfl
      · exact absurd hh he
    rw [if_neg he, he2]
    simp

theorem tryMat_shapeA_tail {ci ne : Bool} {cond : List Char → Bool}
    {oLp m2 : List Char} (ho : noQuoteL oLp = true)
    (hm : noQuoteL m2 = true) :
    tryMat (shapeA ci oLp ne cond) (m2 ++ ['"', ')']) = none := by
  simp only [shapeA, tryMat]
  have h2 : (m2 ++ ['"', ')'] : List Char) = m2 ++ '"' :: [')'] := rfl
  rw [h2, dropPrefC_quote ho hm]
  by_cases he : eqListC ci oLp m2 = true
  · rw [if_pos he]
    dsimp only
    by_cases hc : cond [')'] = true
    · simp [List.takeWhile, List.dropWhile, notQuote, hc, dropPrefC]
    · simp [List.takeWhile, List.dropWhile, notQuote, hc, dropPrefC]
  · rw [if_neg he]

theorem tryMat_shapeA_rp {ci ne : Bool} {cond : List Char → Bool}
    {oLp : List Char} (ho : noQuoteL oLp = true) :
    tryMat (shapeA ci oLp ne cond) [')'] = none := by
  simp only [shapeA, tryMat]
  cases oLp with
  | nil =>
    have : dropPrefC ci ([] ++ ['"']) [')'] = none := by
      simp [dropPrefC, chEq_quote_right (c := ')') (by decide)]
    rw [this]
  | cons a as =>
    have : dropPrefC ci ((a :: as) ++ ['"']) [')'] = none := by
      rw [List.cons_append]
      show (if chEq ci a ')' then dropPrefC ci (as ++ ['"']) [] else none) = none
      by_cases h : chEq ci a ')' = true
      · rw [if_pos h, dropPrefC_nonempty_nil (by simp)]
      · rw [if_neg h]
    rw [this]

theorem tryMat_shapeA_nil {ci ne : Bool} {cond : List Char → Bool}
    {oLp : List Char} :
    tryMat (shapeA ci oLp ne cond) [] = none := by
  simp only [shapeA, tryMat]
  rw [dropPrefC_nonempty_nil (by simp)]

theorem suffix_append_cases {u a b : List Char} (h : u <:+ a ++ b) :
    (∃ x, x <:+ a ∧ u = x ++ b) ∨ u <:+ b := by
  induction a with
  | nil => right; simpa using h
  | cons c a2 ih =>
    rw [List.cons_append, List.suffix_cons_iff] at h
    cases h with
    | inl h =>
      left
      exact ⟨c :: a2, List.suffix_refl _, by rw [h, List.cons_append]⟩
    | inr h =>
      cases ih h with
      | inl h2 =>
        obtain ⟨x, hx, hu⟩ := h2
        exact Or.inl ⟨x, hx.trans (List.suffix_cons c a2), hu⟩
      | inr h2 => exact Or.inr h2

/-- Shape analysis of the suffixes of a single-call text
`pre ++ '"' :: m ++ ['"', ')']`. -/
theorem suffix_shapeA_cases {u pre m : List Char}
    (h : u <:+ pre ++ '"' :: (m ++ ['"', ')'])) :
    (∃ x, x <:+ pre ∧ u = x ++ '"' :: (m ++ ['"', ')'])) ∨
    (∃ m2, m2 <:+ m ∧ u = m2 ++ ['"', ')']) ∨ u = [')'] ∨ u = [] := by
  cases suffix_append_cases h with
  | inl h2 =>
    obtain ⟨x, hx, hu⟩ := h2
    exact Or.inl ⟨x, hx, hu⟩
  | inr h2 =>
    rw [List.suffix_cons_iff] at h2
    cases h2 with
    | inl h3 => exact Or.inl ⟨[], List.nil_suffix, by rw [h3]; rfl⟩
    | inr h3 =>
      cases suffix_append_cases h3 with
      | inl h4 =>
        obtain ⟨m2, hm2, hu⟩ := h4
        exact Or.inr (Or.inl ⟨m2, hm2, hu⟩)
      | inr h4 =>
        rw [List.suffix_cons_iff] at h4
        cases h4 with
        | inl h5 => exact Or.inr (Or.inl ⟨[], List.nil_suffix, by rw [h5]; rfl⟩)
        | inr h5 =>
          rw [List.suffix_cons_iff] at h5
          cases h5 with
          | inl h6 => exact Or.inr (Or.inr (Or.inl h6))
          | inr h6 =>
            have := List.suffix_nil.mp h6
            exact Or.inr (Or.inr (Or.inr this))

/-- When a pattern matches at no suffix of `s`, `re.sub` is the identity and
the match count is zero. -/
theorem scan_none_all {P : Pat} (repl : List Char → List Char → List Char) :
    ∀ s : List Char, (∀ u, u <:+ s → tryMat P u = none) →
      scanSub P repl s = s ∧ scanCount P s = 0 := by
  intro s
  induction s with
  | nil => intro _; exact ⟨scanSub_nil P repl, scanCount_nil P⟩
  | cons c s2 ih =>
    intro h
    have hc : tryMat P (c :: s2) = none := h _ (List.suffix_refl _)
    have hrest := ih (fun u hu => h u (hu.trans (List.suffix_cons c s2)))
    exact ⟨by rw [scanSub_cons_none repl hc, hrest.1],
      by rw [scanCount_cons_none hc, hrest.2]⟩

/-- Scanning `a ++ v` when every match site lies inside `v`: the scanner
walks over `a` untouched. -/
theorem scan_skip_to {P : Pat} (repl : List Char → List Char → List Char) :
    ∀ a v : List Char,
      (∀ u, u <:+ a ++ v → v.length < u.length → tryMat P u = none) →
      scanSub P repl (a ++ v) = a ++ scanSub P repl v ∧
      scanCount P (a ++ v) = scanCount P v := by
  intro a
  induction a with
  | nil => intro v _; simp
  | cons c a2 ih =>
    intro v h
    have hc : tryMat P (c :: (a2 ++ v)) = none := by
      apply h _ (by rw [List.cons_append]) 
      simp [List.length_append]
      omega
    have hrest := ih v (fun u hu hlen =>
      h u (by rw [List.cons_append]; exact hu.trans (List.suffix_cons _ _)) hlen)
    constructor
    · rw [List.cons_append, scanSub_cons_none repl hc, hrest.1, List.cons_append]
    · rw [List.cons_append, scanCount_cons_none hc, hrest.2]

/-- Case-insensitive suffix test. -/
def endsCB (ci : Bool) (p s : List Char) : Bool :=
  if p.length ≤ s.length then eqListC ci p (s.drop (s.length - p.length))
  else false

theorem suffix_eq_drop {x s : List Char} (h : x <:+ s) :
    x = s.drop (s.length - x.length) := by
  obtain ⟨t, ht⟩ := h
  rw [← ht]
  have : (t ++ x).length - x.length = t.length := by
    simp
  rw [this, List.drop_left]

theorem endsCB_false_all {ci : Bool} {p s : List Char}
    (h : endsCB ci p s = false) :
    ∀ x, x <:+ s → eqListC ci p x = false := by
  intro x hx
  cases he : eqListC ci p x with
  | false => rfl
  | true =>
    exfalso
    have hlen : p.length = x.length := eqListC_length he
    have hxs : x.length ≤ s.length := hx.length_le
    unfold endsCB at h
    rw [if_pos (by omega)] at h
    rw [hlen, ← suffix_eq_drop hx, he] at h
    cases h

theorem eqListC_len_ne {ci : Bool} {p x : List Char}
    (h : ¬ p.length = x.length) : eqListC ci p x = false := by
  cases he : eqListC ci p x with
  | false => rfl
  | true => exact absurd (eqListC_length he) h

/-- G4a: the single-call text `pre ++ '"' :: m ++ ['"', ')']` has no match of
a shape-A pattern at all when either the pattern's literal does not end the
prefix region, or the run condition fails at the one aligned site. -/
theorem shapeA_scan_none {ci ne : Bool} {cond : List Char → Bool}
    {oLp pre m : List Char} (repl : List Char → List Char → List Char)
    (ho : noQuoteL oLp = true) (hpre : noQuoteL pre = true)
    (hm : noQuoteL m = true)
    (hblock : endsCB ci oLp pre = false ∨
      ((!(ne && m.isEmpty)) && cond m) = false) :
    scanSub (shapeA ci oLp ne cond) repl (pre ++ '"' :: (m ++ ['"', ')'])) =
      pre ++ '"' :: (m ++ ['"', ')']) ∧
    scanCount (shapeA ci oLp ne cond) (pre ++ '"' :: (m ++ ['"', ')'])) = 0 := by
  apply scan_none_all
  intro u hu
  rcases suffix_shapeA_cases hu with ⟨x, hx, hu2⟩ | ⟨m2, hm2, hu2⟩ | hu2 | hu2
  · subst hu2
    rw [tryMat_shapeA_site ho (noQuoteL_suffix hx hpre) hm]
    cases hblock with
    | inl hb =>
      rw [endsCB_false_all hb x hx]
      simp
    | inr hb =>
      rw [hb]
      simp
  · subst hu2
    exact tryMat_shapeA_tail ho (noQuoteL_suffix hm2 hm)
  · subst hu2
    exact tryMat_shapeA_rp ho
  · subst hu2
    exact tryMat_shapeA_nil

/-- G4b: when the shape-A pattern's literal sits right before the opening
quote and the run condition holds, `re.sub` rewrites exactly that one match
and nothing else. -/
theorem shapeA_scan_match {ci ne : Bool} {cond : List Char → Bool}
    {oLp a x m : List Char} (repl : List Char → List Char → List Char)
    (ho : noQuoteL oLp = true) (ha : noQuoteL a = true)
    (hx : noQuoteL x = true) (hm : noQuoteL m = true)
    (hsite : eqListC ci oLp x = true)
    (hcond : ((!(ne && m.isEmpty)) && cond m) = true) :
    scanSub (shapeA ci oLp ne cond) repl
        ((a ++ x) ++ '"' :: (m ++ ['"', ')'])) =
      a ++ repl (x ++ '"' :: (m ++ ['"', ')'])) m ∧
    scanCount (shapeA ci oLp ne cond) ((a ++ x) ++ '"' :: (m ++ ['"', ')'])) = 1 := by
  have hlen_ox : oLp.length = x.length := eqListC_length hsite
  have hnolong : ∀ u, u <:+ (a ++ x) ++ '"' :: (m ++ ['"', ')']) →
      (x ++ '"' :: (m ++ ['"', ')'])).length < u.length →
      tryMat (shapeA ci oLp ne cond) u = none := by
    intro u hu hlen
    have hax : noQuoteL (a ++ x) = true := by
      simp only [noQuoteL, List.all_append, Bool.and_eq_true] at ha hx ⊢
      exact ⟨ha, hx⟩
    rcases suffix_shapeA_cases hu with ⟨x2, hx2, hu2⟩ | ⟨m2, hm2, hu2⟩ | hu2 | hu2
    · subst hu2
      rw [tryMat_shapeA_site ho (noQuoteL_suffix hx2 hax) hm]
      have hxlen : x.length < x2.length := by
        simp [List.length_append] at hlen
        omega
      rw [eqListC_len_ne (by omega)]
      simp
    · subst hu2
      have h1 : m2.length ≤ m.length := hm2.length_le
      simp [List.length_append] at hlen
      omega
    · subst hu2
      simp [List.length_append] at hlen
    · subst hu2
      simp at hlen
  have hskip := scan_skip_to (P := shapeA ci oLp ne cond) repl a
    (x ++ '"' :: (m ++ ['"', ')'])) (by rw [← List.append_assoc]; exact hnolong)
  have hv : tryMat (shapeA ci oLp ne cond) (x ++ '"' :: (m ++ ['"', ')'])) =
      some ((oLp ++ ['"']).length + m.length + 2, m) := by
    rw [tryMat_shapeA_site ho hx hm, hsite, hcond]
    simp
  have hvlen : (oLp ++ ['"']).length + m.length + 2 =
      (x ++ '"' :: (m ++ ['"', ')'])).length := by
    simp [List.length_append, hlen_ox]
    omega
  have hcore : scanSub (shapeA ci oLp ne cond) repl
        (x ++ '"' :: (m ++ ['"', ')'])) =
      repl (x ++ '"' :: (m ++ ['"', ')'])) m ∧
      scanCount (shapeA ci oLp ne cond) (x ++ '"' :: (m ++ ['"', ')'])) = 1 := by
    cases hxc : x with
    | nil =>
      subst hxc
      rw [List.nil_append] at hv hvlen ⊢
      constructor
      · rw [scanSub_cons_some repl hv, hvlen]
        rw [List.take_length, List.drop_length, scanSub_nil]
        simp
      · rw [scanCount_cons_some hv, hvlen, List.drop_length, scanCount_nil]
    | cons c x2 =>
      subst hxc
      rw [List.cons_append] at hv ⊢
      rw [List.cons_append] at hvlen
      constructor
      · rw [scanSub_cons_some repl hv, hvlen]
        rw [List.take_length, List.drop_length, scanSub_nil]
        simp [List.cons_append]
      · rw [scanCount_cons_some hv, hvlen, List.drop_length, scanCount_nil]
  constructor
  · rw [List.append_assoc, hskip.1, hcore.1]
  · rw [List.append_assoc, hskip.2, hcore.2]

/-- A malformed call `logger."m")`. -/
def malCall (m : List Char) : List Char :=
  ("logger.\"").toList ++ m ++ ("\")").toList

theorem mkCall_shape (w m : List Char) :
    mkCall w m =
      (("logger.").toList ++ w ++ ['(']) ++ '"' :: (m ++ ['"', ')']) := by
  unfold mkCall
  rw [show ("(\"").toList = ['(', '"'] by decide,
      show ("\")").toList = ['"', ')'] by decide]
  simp

theorem malCall_shape (m : List Char) :
    malCall m = ("logger.").toList ++ '"' :: (m ++ ['"', ')']) := by
  unfold malCall
  rw [show ("logger.\"").toList = ("logger.").toList ++ ['"'] by decide,
      show ("\")").toList = ['"', ')'] by decide]
  simp

theorem noQuoteL_call_pre {w : List Char} (hw : noQuoteL w = true) :
    noQuoteL (("logger.").toList ++ w ++ ['(']) = true := by
  simp only [noQuoteL, List.all_append, Bool.and_eq_true] at hw ⊢
  refine ⟨⟨by decide, hw⟩, by decide⟩

/-- A severity pass leaves any call `logger.W("m")` unchanged when its
`logger.debug(` literal does not end the call head (in particular whenever
`W` is not `debug`). -/
theorem dbgPass_noop {ci : Bool} {cond : List Char → Bool} (lvl : List Char)
    {w m : List Char} (hw : noQuoteL w = true) (hm : noQuoteL m = true)
    (hblock : endsCB ci (("logger.debug(").toList)
      (("logger.").toList ++ w ++ ['(']) = false) :
    scanSub (dbgPat ci cond) (sevRepl lvl) (mkCall w m) = mkCall w m := by
  rw [dbgPat_shape, mkCall_shape]
  exact (shapeA_scan_none (sevRepl lvl) (by decide) (noQuoteL_call_pre hw) hm
    (Or.inl hblock)).1

/-- A severity pass whose condition holds rewrites `logger.debug("m")` to
`logger.LVL("m")`. -/
theorem dbgPass_fire {ci : Bool} {cond : List Char → Bool} (lvl : List Char)
    {m : List Char} (hm : noQuoteL m = true) (hc : cond m = true) :
    scanSub (dbgPat ci cond) (sevRepl lvl) (mkCall (("debug").toList) m) =
      mkCall lvl m := by
  rw [dbgPat_shape, mkCall_shape]
  have hxeq : ("logger.").toList ++ ("debug").toList ++ ['('] =
      ("logger.debug(").toList := by decide
  rw [hxeq]
  have h := (@shapeA_scan_match ci false cond (("logger.debug(").toList)
    ([] : List Char) (("logger.debug(").toList) m (sevRepl lvl)
    (by decide) (by decide) (by decide) hm (eqListC_refl ci _)
    (by simp [hc])).1
  rw [List.nil_append] at h
  rw [h]
  simp [sevRepl]

/-- A severity pass whose condition fails leaves `logger.debug("m")`
unchanged. -/
theorem dbgPass_skip {ci : Bool} {cond : List Char → Bool} (lvl : List Char)
    {m : List Char} (hm : noQuoteL m = true) (hc : cond m = false) :
    scanSub (dbgPat ci cond) (sevRepl lvl) (mkCall (("debug").toList) m) =
      mkCall (("debug").toList) m := by
  rw [dbgPat_shape, mkCall_shape]
  exact (shapeA_scan_none (sevRepl lvl) (by decide)
    (noQuoteL_call_pre (by decide)) hm (Or.inr (by simp [hc]))).1

/-- Pass 1 rewrites a malformed call `logger."m")` to the well-formed
`logger.debug("m")`. -/
theorem mal_fire {m : List Char} (hm : noQuoteL m = true) (hne : m ≠ []) :
    scanSub malformedPat (sevRepl (("debug").toList)) (malCall m) =
      mkCall (("debug").toList) m := by
  rw [malformedPat_shape, malCall_shape]
  have h := (@shapeA_scan_match false true (fun _ => true)
    (("logger.").toList) ([] : List Char) (("logger.").toList) m
    (sevRepl (("debug").toList))
    (by decide) (by decide) (by decide) hm (eqListC_refl false _)
    (by simp [hne])).1
  rw [List.nil_append] at h
  rw [h]
  simp [sevRepl]

/-- Pass 1 leaves a well-formed call `logger.W("m")` unchanged (its literal
`logger."` does not occur). -/
theorem mal_noop {w m : List Char} (hw : noQuoteL w = true)
    (hm : noQuoteL m = true)
    (hblock : endsCB false (("logger.").toList)
      (("logger.").toList ++ w ++ ['(']) = false) :
    scanSub malformedPat (sevRepl (("debug").toList)) (mkCall w m) =
      mkCall w m := by
  rw [malformedPat_shape, mkCall_shape]
  exact (shapeA_scan_none (sevRepl (("debug").toList)) (by decide)
    (noQuoteL_call_pre hw) hm (Or.inl hblock)).1

/-- The malformed-call pattern has no match in a well-formed call. -/
theorem mal_count_zero {w m : List Char} (hw : noQuoteL w = true)
    (hm : noQuoteL m = true)
    (hblock : endsCB false (("logger.").toList)
      (("logger.").toList ++ w ++ ['(']) = false) :
    scanCount malformedPat (mkCall w m) = 0 := by
  rw [malformedPat_shape, mkCall_shape]
  exact (shapeA_scan_none (sevRepl (("debug").toList)) (by decide)
    (noQuoteL_call_pre hw) hm (Or.inl hblock)).2

/-- The severity that the cascade of passes 2–9 assigns to a message:
the first matching rule wins, because its rewrite changes the call level and
all later severity rules only match `logger.debug` calls. -/
def fl_level (m : List Char) : List Char :=
  if containsCI (("error").toList) m then ("error").toList
  else if containsCI (("failed").toList) m then ("error").toList
  else if containsCI (("invalid").toList) m then ("error").toList
  else if containsCI (("not configured").toList) m then ("warning").toList
  else if containsCI (("not properly").toList) m then ("warning").toList
  else if ttsCond ((": generateAudio").toList) m then ("info").toList
  else if ttsCond ((": Received").toList) m then ("info").toList
  else if ttsCond ((": Audio saved").toList) m then ("info").toList
  else ("debug").toList

/-- Passes 3–9 leave a call unchanged once its level is no longer `debug`. -/
theorem fl_noop_from3 {w m : List Char} (hw : noQuoteL w = true)
    (hm : noQuoteL m = true)
    (hb1 : endsCB true (("logger.debug(").toList)
      (("logger.").toList ++ w ++ ['(']) = false)
    (hb0 : endsCB false (("logger.debug(").toList)
      (("logger.").toList ++ w ++ ['(']) = false) :
    fl_pass9 (fl_pass8 (fl_pass7 (fl_pass6 (fl_pass5 (fl_pass4 (fl_pass3
      (mkCall w m))))))) = mkCall w m := by
  simp only [fl_pass3, fl_pass4, fl_pass5, fl_pass6, fl_pass7, fl_pass8,
    fl_pass9]
  rw [dbgPass_noop (("error").toList) hw hm hb1,
      dbgPass_noop (("error").toList) hw hm hb1,
      dbgPass_noop (("warning").toList) hw hm hb1,
      dbgPass_noop (("warning").toList) hw hm hb1,
      dbgPass_noop (("info").toList) hw hm hb0,
      dbgPass_noop (("info").toList) hw hm hb0,
      dbgPass_noop (("info").toList) hw hm hb0]

/-- The severity cascade: passes 2–9 rewrite `logger.debug("m")` to
`logger.LVL("m")` where `LVL` is decided by the first matching rule. -/
theorem fl_cascade {m : List Char} (hm : noQuoteL m = true) :
    fl_pass9 (fl_pass8 (fl_pass7 (fl_pass6 (fl_pass5 (fl_pass4 (fl_pass3
      (fl_pass2 (mkCall (("debug").toList) m)))))))) =
      mkCall (fl_level m) m := by
  by_cases h2 : containsCI (("error").toList) m = true
  · simp only [fl_pass2]
    rw [dbgPass_fire (("error").toList) hm h2,
        fl_noop_from3 (by decide) hm (by decide) (by decide)]
    have hlv : fl_level m = ("error").toList := by
      unfold fl_level
      rw [if_pos h2]
    rw [hlv]
  · have h2f : containsCI (("error").toList) m = false :=
      Bool.not_eq_true _ ▸ Bool.of_not_eq_true h2
    simp only [fl_pass2]
    rw [dbgPass_skip (("error").toList) hm h2f]
    by_cases h3 : containsCI (("failed").toList) m = true
    · simp only [fl_pass3]
      rw [dbgPass_fire (("error").toList) hm h3]
      have h49 : fl_pass9 (fl_pass8 (fl_pass7 (fl_pass6 (fl_pass5 (fl_pass4
          (mkCall (("error").toList) m)))))) = mkCall (("error").toList) m := by
        simp only [fl_pass4, fl_pass5, fl_pass6, fl_pass7, fl_pass8, fl_pass9]
        rw [dbgPass_noop (("error").toList) (by decide) hm (by decide),
            dbgPass_noop (("warning").toList) (by decide) hm (by decide),
            dbgPass_noop (("warning").toList) (by decide) hm (by decide),
            dbgPass_noop (("info").toList) (by decide) hm (by decide),
            dbgPass_noop (("info").toList) (by decide) hm (by decide),
            dbgPass_noop (("info").toList) (by decide) hm (by decide)]
      rw [h49]
      have hlv : fl_level m = ("error").toList := by
        unfold fl_level
        rw [if_neg (ne_true_of_eq_false h2f), if_pos h3]
      rw [hlv]
    · have h3f : containsCI (("failed").toList) m = false :=
        Bool.not_eq_true _ ▸ Bool.of_not_eq_true h3
      simp only [fl_pass3]
      rw [dbgPass_skip (("error").toList) hm h3f]
      by_cases h4 : containsCI (("invalid").toList) m = true
      · simp only [fl_pass4]
        rw [dbgPass_fire (("error").toList) hm h4]
        have h59 : fl_pass9 (fl_pass8 (fl_pass7 (fl_pass6 (fl_pass5
            (mkCall (("error").toList) m))))) = mkCall (("error").toList) m := by
          simp only [fl_pass5, fl_pass6, fl_pass7, fl_pass8, fl_pass9]
          rw [dbgPass_noop (("warning").toList) (by decide) hm (by decide),
              dbgPass_noop (("warning").toList) (by decide) hm (by decide),
              dbgPass_noop (("info").toList) (by decide) hm (by decide),
              dbgPass_noop (("info").toList) (by decide) hm (by decide),
              dbgPass_noop (("info").toList) (by decide) hm (by decide)]
        rw [h59]
        have hlv : fl_level m = ("error").toList := by
          unfold fl_level
          rw [if_neg (ne_true_of_eq_false h2f), if_neg (ne_true_of_eq_false h3f), if_pos h4]
        rw [hlv]
      · have h4f : containsCI (("invalid").toList) m = false :=
          Bool.not_eq_true _ ▸ Bool.of_not_eq_true h4
        simp only [fl_pass4]
        rw [dbgPass_skip (("error").toList) hm h4f]
        by_cases h5 : containsCI (("not configured").toList) m = true
        · simp only [fl_pass5]
          rw [dbgPass_fire (("warning").toList) hm h5]
          have h69 : fl_pass9 (fl_pass8 (fl_pass7 (fl_pass6
              (mkCall (("warning").toList) m)))) =
              mkCall (("warning").toList) m := by
            simp only [fl_pass6, fl_pass7, fl_pass8, fl_pass9]
            rw [dbgPass_noop (("warning").toList) (by decide) hm (by decide),
                dbgPass_noop (("info").toList) (by decide) hm (by decide),
                dbgPass_noop (("info").toList) (by decide) hm (by decide),
                dbgPass_noop (("info").toList) (by decide) hm (by decide)]
          rw [h69]
          have hlv : fl_level m = ("warning").toList := by
            unfold fl_level
            rw [if_neg (ne_true_of_eq_false h2f), if_neg (ne_true_of_eq_false h3f),
                if_neg (ne_true_of_eq_false h4f), if_pos h5]
          rw [hlv]
        · have h5f : containsCI (("not configured").toList) m = false :=
            Bool.not_eq_true _ ▸ Bool.of_not_eq_true h5
          simp only [fl_pass5]
          rw [dbgPass_skip (("warning").toList) hm h5f]
          by_cases h6 : containsCI (("not properly").toList) m = true
          · simp only [fl_pass6]
            rw [dbgPass_fire (("warning").toList) hm h6]
            have h79 : fl_pass9 (fl_pass8 (fl_pass7
                (mkCall (("warning").toList) m))) =
                mkCall (("warning").toList) m := by
              simp only [fl_pass7, fl_pass8, fl_pass9]
              rw [dbgPass_noop (("info").toList) (by decide) hm (by decide),
                  dbgPass_noop (("info").toList) (by decide) hm (by decide),
                  dbgPass_noop (("info").toList) (by decide) hm (by decide)]
            rw [h79]
            have hlv : fl_level m = ("warning").toList := by
              unfold fl_level
              rw [if_neg (ne_true_of_eq_false h2f), if_neg (ne_true_of_eq_false h3f),
                  if_neg (ne_true_of_eq_false h4f), if_neg (ne_true_of_eq_false h5f), if_pos h6]
            rw [hlv]
          · have h6f : containsCI (("not properly").toList) m = false :=
              Bool.not_eq_true _ ▸ Bool.of_not_eq_true h6
            simp only [fl_pass6]
            rw [dbgPass_skip (("warning").toList) hm h6f]
            by_cases h7 : ttsCond ((": generateAudio").toList) m = true
            · simp only [fl_pass7]
              rw [dbgPass_fire (("info").toList) hm h7]
              have h89 : fl_pass9 (fl_pass8 (mkCall (("info").toList) m)) =
                  mkCall (("info").toList) m := by
                simp only [fl_pass8, fl_pass9]
                rw [dbgPass_noop (("info").toList) (by decide) hm (by decide),
                    dbgPass_noop (("info").toList) (by decide) hm (by decide)]
              rw [h89]
              have hlv : fl_level m = ("info").toList := by
                unfold fl_level
                rw [if_neg (ne_true_of_eq_false h2f), if_neg (ne_true_of_eq_false h3f),
                    if_neg (ne_true_of_eq_false h4f), if_neg (ne_true_of_eq_false h5f),
                    if_neg (ne_true_of_eq_false h6f), if_pos h7]
              rw [hlv]
            · have h7f : ttsCond ((": generateAudio").toList) m = false :=
                Bool.not_eq_true _ ▸ Bool.of_not_eq_true h7
              simp only [fl_pass7]
              rw [dbgPass_skip (("info").toList) hm h7f]
              by_cases h8 : ttsCond ((": Received").toList) m = true
              · simp only [fl_pass8]
                rw [dbgPass_fire (("info").toList) hm h8]
                have h99 : fl_pass9 (mkCall (("info").toList) m) =
                    mkCall (("info").toList) m := by
                  simp only [fl_pass9]
                  rw [dbgPass_noop (("info").toList) (by decide) hm (by decide)]
                rw [h99]
                have hlv : fl_level m = ("info").toList := by
                  unfold fl_level
                  rw [if_neg (ne_true_of_eq_false h2f), if_neg (ne_true_of_eq_false h3f),
                      if_neg (ne_true_of_eq_false h4f), if_neg (ne_true_of_eq_false h5f),
                      if_neg (ne_true_of_eq_false h6f), if_neg (ne_true_of_eq_false h7f),
                      if_pos h8]
                rw [hlv]
              · have h8f : ttsCond ((": Received").toList) m = false :=
                  Bool.not_eq_true _ ▸ Bool.of_not_eq_true h8
                simp only [fl_pass8]
                rw [dbgPass_skip (("info").toList) hm h8f]
                by_cases h9 : ttsCond ((": Audio saved").toList) m = true
                · simp only [fl_pass9]
                  rw [dbgPass_fire (("info").toList) hm h9]
                  have hlv : fl_level m = ("info").toList := by
                    unfold fl_level
                    rw [if_neg (ne_true_of_eq_false h2f), if_neg (ne_true_of_eq_false h3f),
                        if_neg (ne_true_of_eq_false h4f), if_neg (ne_true_of_eq_false h5f),
                        if_neg (ne_true_of_eq_false h6f), if_neg (ne_true_of_eq_false h7f),
                        if_neg (ne_true_of_eq_false h8f), if_pos h9]
                  rw [hlv]
                · have h9f : ttsCond ((": Audio saved").toList) m = false :=
                    Bool.not_eq_true _ ▸ Bool.of_not_eq_true h9
                  simp only [fl_pass9]
                  rw [dbgPass_skip (("info").toList) hm h9f]
                  have hlv : fl_level m = ("debug").toList := by
                    unfold fl_level
                    rw [if_neg (ne_true_of_eq_false h2f), if_neg (ne_true_of_eq_false h3f),
                        if_neg (ne_true_of_eq_false h4f), if_neg (ne_true_of_eq_false h5f),
                        if_neg (ne_true_of_eq_false h6f), if_neg (ne_true_of_eq_false h7f),
                        if_neg (ne_true_of_eq_false h8f), if_neg (ne_true_of_eq_false h9f)]
                  rw [hlv]

/-- A seg pattern fails when its opening literal is not a prefix. -/
theorem tryMat_seg_no_open {ci ne : Bool} {oL cL : List Char}
    {keep : Char → Bool} {cond : List Char → Bool} {u : List Char}
    (h : dropPrefC ci oL u = none) :
    tryMat (.seg ci oL keep ne cond cL) u = none := by
  simp [tryMat, h]

theorem startsW_head_eq {a b : Char} {q s : List Char}
    (h : startsWB (a :: q) (b :: s) = true) : a = b := by
  simp only [startsWB, dropPrefC] at h
  by_cases hc : chEq false a b = true
  · exact chEq_false_iff.mp hc
  · rw [if_neg (by simpa using hc)] at h
    simp at h

theorem startsW_split {q x y : List Char} (h : startsWB q (x ++ y) = true)
    (hlt : x.length < q.length) : startsWB (q.drop x.length) y = true := by
  obtain ⟨t, ht⟩ := startsW_iff.mp h
  apply startsW_iff.mpr
  refine ⟨t, ?_⟩
  have h1 : (x ++ y).drop x.length = y := by simp
  rw [ht, List.drop_append_eq_append_drop] at h1
  have h2 : x.length - q.length = 0 := by omega
  rw [h2, List.drop_zero] at h1
  exact h1.symm

/-- An occurrence of a quote-free needle in `m2 ++ ['"', ')']` lies entirely
inside `m2`. -/
theorem startsW_tail_inside {q m2 : List Char} (hq : q ≠ [])
    (hnq : ¬ '"' ∈ q) (h : startsWB q (m2 ++ ['"', ')']) = true) :
    startsWB q m2 = true := by
  by_cases hlen : q.length ≤ m2.length
  · rwa [startsW_append_of_le hlen] at h
  · exfalso
    have hlt : m2.length < q.length := by omega
    have h2 := startsW_split h hlt
    cases hd : q.drop m2.length with
    | nil =>
      have h3 : q.length ≤ m2.length := by
        have := List.drop_eq_nil_iff_le.mp hd
        omega
      omega
    | cons c rest =>
      rw [hd] at h2
      have hc : c = '"' := startsW_head_eq h2
      have hcm : c ∈ q := by
        have h4 : c ∈ q.drop m2.length := by
          rw [hd]
          exact List.mem_cons_self c rest
        exact List.drop_subset _ _ h4
      exact hnq (hc ▸ hcm)

theorem hasOc_of_suffix {q u s : List Char} (hq : q ≠ []) (hu : u <:+ s)
    (h : startsWB q u = true) : hasOc q s = true := by
  obtain ⟨t, ht⟩ := hu
  subst ht
  apply hasOc_append_r
  cases u with
  | nil =>
    exfalso
    have h1 := startsW_length_le h
    simp at h1
    exact hq h1
  | cons c u2 =>
    show (startsWB q (c :: u2) || hasOc q u2) = true
    rw [h]
    simp

/-- A quote-free needle occurs at the start of `m ++ ['"', ')']` exactly when
it occurs at the start of `m`. -/
theorem startsW_msg_tail {q m : List Char} (hq : q ≠ [])
    (hnq : ¬ '"' ∈ q) :
    startsWB q (m ++ ['"', ')']) = startsWB q m := by
  cases h : startsWB q (m ++ ['"', ')']) with
  | true =>
    rw [startsW_tail_inside hq hnq h]
  | false =>
    cases h2 : startsWB q m with
    | false => rfl
    | true =>
      have := startsW_mono ['"', ')'] h2
      rw [h] at this
      cases this

/-- Matching the strip pattern at the start of a well-formed call: it fires
exactly when the message (followed by its closing quote) starts with the
prefix to strip, consuming the head, the level word, `("` and the prefix. -/
theorem tryMat_strip_site {pre w m : List Char}
    (hw : w.all isWordCh = true) (hwne : w ≠ []) :
    tryMat (stripPat pre) (mkCall w m) =
      if startsWB pre (m ++ ['"', ')'])
      then some ((("logger.").toList).length + w.length +
        ('(' :: '"' :: pre).length, w)
      else none := by
  have hcall : mkCall w m =
      ("logger.").toList ++ (w ++ '(' :: '"' :: (m ++ ['"', ')'])) := by
    unfold mkCall
    rw [show (("(\"").toList : List Char) = ['(', '"'] by decide,
        show (("\")").toList : List Char) = ['"', ')'] by decide]
    simp
  have hwe : w.isEmpty = false := by
    cases w with
    | nil => exact absurd rfl hwne
    | cons a b => rfl
  have hdp : dropPrefC false (("logger.").toList)
      (("logger.").toList ++ (w ++ '(' :: '"' :: (m ++ ['"', ')']))) =
      some (w ++ '(' :: '"' :: (m ++ ['"', ')'])) :=
    dropPrefC_false_some.mpr rfl
  have htk := takeWhile_stop (show isWordCh '(' = false by decide)
    ('"' :: (m ++ ['"', ')'])) hw
  simp only [stripPat, tryMat]
  rw [hcall, hdp]
  dsimp only
  rw [htk.1, htk.2, hwe]
  simp only [Bool.and_false, Bool.false_eq_true, if_false]
  rw [show (("(\"").toList : List Char) ++ pre = '(' :: '"' :: pre by
        rw [show (("(\"").toList : List Char) = ['(', '"'] by decide]
        rfl]
  have hstep : dropPrefC false ('(' :: '"' :: pre)
      ('(' :: '"' :: (m ++ ['"', ')'])) =
      dropPrefC false pre (m ++ ['"', ')']) := by
    simp [dropPrefC, chEq_refl]
  rw [hstep]
  cases hd : dropPrefC false pre (m ++ ['"', ')']) with
  | none =>
    rw [show startsWB pre (m ++ ['"', ')']) = false by simp [startsWB, hd]]
    simp
  | some t =>
    rw [show startsWB pre (m ++ ['"', ')']) = true by simp [startsWB, hd]]
    rw [if_neg (show ¬ ((("logger.").toList).length + w.length +
          ('(' :: '"' :: pre).length = 0) by
        have h7 : (("logger.").toList).length = 7 := by decide
        simp [List.length_cons])]
    simp

theorem head_not_l_no_logger {u : List Char} {c : Char} (hc : ¬ c = 'l') :
    dropPrefC false (("logger.").toList) (c :: u) = none := by
  rw [show (("logger.").toList : List Char) = 'l' :: ("ogger.").toList by
    decide]
  simp only [dropPrefC]
  rw [if_neg (show ¬ chEq false 'l' c = true by
    simp [chEq]
    intro h
    exact hc h.symm)]

/-- No strip-pattern match can start inside the message region of a call. -/
theorem strip_no_match_tail {pre m m2 : List Char}
    (hmlog : hasOc (("logger.").toList) m = false) (hm2 : m2 <:+ m) :
    tryMat (stripPat pre) (m2 ++ ['"', ')']) = none := by
  apply tryMat_seg_no_open
  cases hd : dropPrefC false (("logger.").toList) (m2 ++ ['"', ')']) with
  | none => rfl
  | some t =>
    exfalso
    have hs : startsWB (("logger.").toList) (m2 ++ ['"', ')']) = true := by
      simp only [startsWB]
      rw [hd]
      rfl
    have hs2 := startsW_tail_inside (by decide) (by decide) hs
    have h3 := hasOc_of_suffix (by decide) hm2 hs2
    rw [hmlog] at h3
    cases h3

/-- No strip-pattern match can start strictly inside the head region
`logger.W(` of a call whose level word contains no letter `l`. -/
theorem strip_no_match_head {pre w m x : List Char}
    (hwl : w.all (fun c => !(c == 'l')) = true)
    (hx : x <:+ ("ogger.").toList ++ w ++ ['(']) :
    tryMat (stripPat pre) (x ++ '"' :: (m ++ ['"', ')'])) = none := by
  apply tryMat_seg_no_open
  cases x with
  | nil =>
    rw [List.nil_append]
    exact head_not_l_no_logger (by decide)
  | cons c x2 =>
    have hcm : c ∈ ("ogger.").toList ++ w ++ ['('] :=
      hx.subset (List.mem_cons_self c x2)
    have hcl : ¬ c = 'l' := by
      intro h
      subst h
      rcases List.mem_append.mp hcm with h1 | h1
      · rcases List.mem_append.mp h1 with h2 | h2
        · exact absurd h2 (by decide)
        · have h4 := List.all_eq_true.mp hwl 'l' h2
          simp at h4
      · exact absurd h1 (by decide)
    rw [List.cons_append]
    exact head_not_l_no_logger hcl

theorem strip_no_match_rp {pre : List Char} :
    tryMat (stripPat pre) [')'] = none := by
  apply tryMat_seg_no_open
  decide

theorem strip_no_match_nil {pre : List Char} :
    tryMat (stripPat pre) [] = none := by
  apply tryMat_seg_no_open
  decide

theorem strip_no_match_qrp {pre : List Char} :
    tryMat (stripPat pre) ['"', ')'] = none := by
  apply tryMat_seg_no_open
  decide

/-- The strip pass leaves a call alone when its message does not start with
the prefix being stripped. -/
theorem strip_pass_skip {pre w m : List Char}
    (hw : w.all isWordCh = true) (hwne : w ≠ [])
    (hwl : w.all (fun c => !(c == 'l')) = true)
    (hmlog : hasOc (("logger.").toList) m = false)
    (hpne : pre ≠ []) (hpq : ¬ '"' ∈ pre)
    (hpres : startsWB pre m = false) :
    scanSub (stripPat pre) stripRepl (mkCall w m) = mkCall w m := by
  rw [mkCall_shape]
  refine (scan_none_all stripRepl _ ?_).1
  intro u hu
  rcases suffix_shapeA_cases hu with ⟨x, hx, hu2⟩ | ⟨m2, hm2, hu2⟩ | hu2 | hu2
  · subst hu2
    have hH : (("logger.").toList : List Char) ++ w ++ ['('] =
        'l' :: (("ogger.").toList ++ w ++ ['(']) := by
      rw [show (("logger.").toList : List Char) = 'l' :: ("ogger.").toList by
        decide]
      simp
    rw [hH] at hx
    rcases List.suffix_cons_iff.mp hx with he | hp
    · rw [he, ← hH, ← mkCall_shape, tryMat_strip_site hw hwne,
          startsW_msg_tail hpne hpq, hpres]
      simp
    · exact strip_no_match_head hwl hp
  · subst hu2
    exact strip_no_match_tail hmlog hm2
  · subst hu2
    exact strip_no_match_rp
  · subst hu2
    exact strip_no_match_nil

/-- The strip pass removes the prefix from a call whose message starts with
it: `logger.W("PRE rest")` becomes `logger.W("rest")`. -/
theorem strip_pass_fire {pre w m : List Char}
    (hw : w.all isWordCh = true) (hwne : w ≠ [])
    (hwl : w.all (fun c => !(c == 'l')) = true)
    (hmlog : hasOc (("logger.").toList) m = false)
    (hpne : pre ≠ []) (hpq : ¬ '"' ∈ pre)
    (hpres : startsWB pre m = true) :
    scanSub (stripPat pre) stripRepl (mkCall w m) =
      mkCall w (m.drop pre.length) := by
  obtain ⟨t, ht⟩ := startsW_iff.mp hpres
  have htd : t = m.drop pre.length := by
    rw [ht]
    simp
  have hsplit : mkCall w m =
      (("logger.").toList ++ w ++ '(' :: '"' :: pre) ++ (t ++ ['"', ')']) := by
    unfold mkCall
    rw [ht, show (("(\"").toList : List Char) = ['(', '"'] by decide,
        show (("\")").toList : List Char) = ['"', ')'] by decide]
    simp
  have hmat : tryMat (stripPat pre) (mkCall w m) =
      some ((("logger.").toList ++ w ++ '(' :: '"' :: pre).length, w) := by
    rw [tryMat_strip_site hw hwne, startsW_msg_tail hpne hpq, hpres,
        if_pos rfl]
    have hlen : (("logger.").toList).length + w.length +
        ('(' :: '"' :: pre).length =
        ((("logger.").toList : List Char) ++ w ++ '(' :: '"' :: pre).length := by
      simp [List.length_append]
      omega
    rw [hlen]
  have hcons : (("logger.").toList : List Char) ++ w ++ '(' :: '"' :: pre ++
      (t ++ ['"', ')']) =
      'l' :: (("ogger.").toList ++ w ++ '(' :: '"' :: pre ++ (t ++ ['"', ')'])) := by
    rw [show (("logger.").toList : List Char) = 'l' :: ("ogger.").toList by
      decide]
    simp
  have hrest : scanSub (stripPat pre) stripRepl (t ++ ['"', ')']) =
      t ++ ['"', ')'] := by
    refine (scan_none_all stripRepl _ ?_).1
    intro u hu
    rcases suffix_append_cases hu with ⟨x, hx, hu2⟩ | hu2
    · subst hu2
      have hxm : x <:+ m := by
        have h1 : t <:+ m := by
          rw [htd]
          exact List.drop_suffix _ _
        exact hx.trans h1
      exact strip_no_match_tail hmlog hxm
    · rcases List.suffix_cons_iff.mp hu2 with he | hu3
      · rw [he]
        exact strip_no_match_qrp
      · rcases List.suffix_cons_iff.mp hu3 with he | hu4
        · rw [he]
          exact strip_no_match_rp
        · rw [List.suffix_nil.mp hu4]
          exact strip_no_match_nil
  have hA : mkCall w m = 'l' ::
      (("ogger.").toList ++ w ++ '(' :: '"' :: pre ++ (t ++ ['"', ')'])) := by
    rw [hsplit, show (("logger.").toList : List Char) =
      'l' :: ("ogger.").toList by decide]
    simp
  rw [hA] at hmat
  rw [hA, scanSub_cons_some stripRepl hmat, ← hA]
  rw [hsplit, List.take_left, List.drop_left, hrest, htd]
  simp [stripRepl, mkCall, List.append_assoc,
    show (("\")").toList : List Char) = ['"', ')'] by decide]

/-- The effect of the prefix-strip pass on a message. -/
def stripOf (pre m : List Char) : List Char :=
  if startsWB pre m then m.drop pre.length else m

theorem fl_level_cases (m : List Char) :
    fl_level m = ("error").toList ∨ fl_level m = ("warning").toList ∨
    fl_level m = ("info").toList ∨ fl_level m = ("debug").toList := by
  unfold fl_level
  split_ifs <;> simp

/-- Pass 10 of `fix_logging.py` on a single well-formed call: it strips the
`TTSService: ` message prefix when present and does nothing otherwise. -/
theorem fl_pass10_call {w m : List Char}
    (hw : w.all isWordCh = true) (hwne : w ≠ [])
    (hwl : w.all (fun c => !(c == 'l')) = true)
    (hmlog : hasOc (("logger.").toList) m = false) :
    fl_pass10 (mkCall w m) =
      mkCall w (stripOf (("TTSService: ").toList) m) := by
  simp only [fl_pass10, stripOf]
  by_cases hs : startsWB (("TTSService: ").toList) m = true
  · rw [strip_pass_fire hw hwne hwl hmlog (by decide) (by decide) hs,
        if_pos hs]
  · have hs2 : startsWB (("TTSService: ").toList) m = false :=
      Bool.of_not_eq_true hs
    rw [strip_pass_skip hw hwne hwl hmlog (by decide) (by decide) hs2,
        if_neg hs]

theorem noQuoteL_stripOf {m : List Char} (pre : List Char)
    (hm : noQuoteL m = true) : noQuoteL (stripOf pre m) = true := by
  unfold stripOf
  by_cases hs : startsWB pre m = true
  · rw [if_pos hs]
    exact noQuoteL_drop _ hm
  · rw [if_neg hs]
    exact hm

/-- C9: the severity rules of `fix_logging.py` are applied sequentially in
source order; on a `logger.debug` call with a quote-free message `m` (not
itself containing the text `logger.`), the pipeline rewrites the call to the
level assigned by the first matching rule and strips a leading
`TTSService: ` from the message; messages containing `error` or `failed`
(case-insensitively) are promoted to `logger.error`, and messages containing
`not configured` that no earlier (error-promoting) rule matched are promoted
to `logger.warning`. -/
theorem c9_severity_cascade_and_strip (m : List Char)
    (hm : noQuoteL m = true)
    (hmlog : hasOc (("logger.").toList) m = false) :
    fix_logging (mkCall (("debug").toList) m) =
      mkCall (fl_level m) (stripOf (("TTSService: ").toList) m) ∧
    ((containsCI (("error").toList) m = true ∨
        containsCI (("failed").toList) m = true) →
      fl_level m = ("error").toList) ∧
    (containsCI (("not configured").toList) m = true →
      containsCI (("error").toList) m = false →
      containsCI (("failed").toList) m = false →
      containsCI (("invalid").toList) m = false →
      fl_level m = ("warning").toList) := by
  refine ⟨?_, ?_, ?_⟩
  · have h1 : fl_pass1 (mkCall (("debug").toList) m) =
        mkCall (("debug").toList) m := by
      simp only [fl_pass1]
      exact mal_noop (by decide) hm (by decide)
    have hcas := fl_cascade hm
    have hcond : (fl_level m).all isWordCh = true ∧ fl_level m ≠ [] ∧
        (fl_level m).all (fun c => !(c == 'l')) = true := by
      rcases fl_level_cases m with h | h | h | h <;> rw [h] <;>
        exact ⟨by decide, by decide, by decide⟩
    have h10 := fl_pass10_call hcond.1 hcond.2.1 hcond.2.2 hmlog
    simp only [fix_logging]
    rw [h1, hcas, h10]
  · intro h
    rcases h with h | h
    · unfold fl_level
      rw [if_pos h]
    · by_cases he : containsCI (("error").toList) m = true
      · unfold fl_level
        rw [if_pos he]
      · unfold fl_level
        rw [if_neg he, if_pos h]
  · intro h he hf hi
    unfold fl_level
    rw [if_neg (ne_true_of_eq_false he), if_neg (ne_true_of_eq_false hf),
        if_neg (ne_true_of_eq_false hi), if_pos h]

/-- Witness for C9 at a concrete call: `logger.debug("TTSService: Audio save
failed")` becomes `logger.error("Audio save failed")`. -/
theorem c9_severity_cascade_and_strip_witness :
    fix_logging (mkCall (("debug").toList)
        (("TTSService: Audio save failed").toList)) =
      mkCall (("error").toList) (("Audio save failed").toList) := by
  have h := c9_severity_cascade_and_strip
    (("TTSService: Audio save failed").toList) (by decide) (by decide)
  rw [h.1]
  decide

/-- C10 (amended): on a single malformed call `logger."m")` with a nonempty,
quote-free message not containing `logger.`, the first rule does rewrite it
to `logger.debug("m")` before any severity rule runs, and the pipeline's
output for that call contains no malformed call; however the original
universal claim is false (see the counterexample), because the first rule's
own output can still contain the malformed form when the message has quotes
spliced around `logger.` text. -/
theorem c10_amended_single_malformed (m : List Char)
    (hm : noQuoteL m = true) (hne : m ≠ [])
    (hmlog : hasOc (("logger.").toList) m = false) :
    fl_pass1 (malCall m) = mkCall (("debug").toList) m ∧
    fix_logging (malCall m) =
      mkCall (fl_level m) (stripOf (("TTSService: ").toList) m) ∧
    scanCount malformedPat (fix_logging (malCall m)) = 0 := by
  have h1 : fl_pass1 (malCall m) = mkCall (("debug").toList) m := by
    simp only [fl_pass1]
    exact mal_fire hm hne
  have hcas := fl_cascade hm
  have hcond : (fl_level m).all isWordCh = true ∧ fl_level m ≠ [] ∧
      (fl_level m).all (fun c => !(c == 'l')) = true ∧
      noQuoteL (fl_level m) = true ∧
      endsCB false (("logger.").toList)
        (("logger.").toList ++ fl_level m ++ ['(']) = false := by
    rcases fl_level_cases m with h | h | h | h <;> rw [h] <;>
      exact ⟨by decide, by decide, by decide, by decide, by decide⟩
  have h10 := fl_pass10_call hcond.1 hcond.2.1 hcond.2.2.1 hmlog
  have hfix : fix_logging (malCall m) =
      mkCall (fl_level m) (stripOf (("TTSService: ").toList) m) := by
    simp only [fix_logging]
    rw [h1, hcas, h10]
  refine ⟨h1, hfix, ?_⟩
  rw [hfix]
  exact mal_count_zero hcond.2.2.2.1
    (noQuoteL_stripOf (("TTSService: ").toList) hm) hcond.2.2.2.2

/-- Witness for the amended C10 at a concrete malformed call:
`logger."save failed")` is repaired and promoted to
`logger.error("save failed")`, and the output is free of malformed calls. -/
theorem c10_amended_single_malformed_witness :
    fix_logging (malCall (("save failed").toList)) =
      mkCall (("error").toList) (("save failed").toList) ∧
    scanCount malformedPat
      (fix_logging (malCall (("save failed").toList))) = 0 := by
  have h := c10_amended_single_malformed (("save failed").toList)
    (by decide) (by decide) (by decide)
  refine ⟨?_, h.2.2⟩
  rw [h.2.1]
  decide
